import Mathlib

/-!
Shallow embedding of the manifest-resolution and signature-descrambling core
of the yt-download repository (package `youtube`, file modelled from
`src/unnamed/part_001`, the goja-based variant).  Go strings are modelled as
`List Char` where every element stands for one byte (all inputs of interest
are ASCII); fallible Go functions returning `(T, error)` become
`Except String T` or `Option T`; the network and the goja JavaScript engine
are external collaborators and appear as explicit oracle parameters.
-/

namespace Ytdl

/-- decidable equality for `Except`, needed to settle concrete runs of the
fallible models by `decide`. -/
instance {ε α : Type} [DecidableEq ε] [DecidableEq α] : DecidableEq (Except ε α) := fun a b =>
  match a, b with
  | Except.ok x, Except.ok y =>
    if h : x = y then Decidable.isTrue (congrArg Except.ok h)
    else Decidable.isFalse (fun hh => h (Except.ok.inj hh))
  | Except.error x, Except.error y =>
    if h : x = y then Decidable.isTrue (congrArg Except.error h)
    else Decidable.isFalse (fun hh => h (Except.error.inj hh))
  | Except.ok _, Except.error _ => Decidable.isFalse (fun hh => Except.noConfusion hh)
  | Except.error _, Except.ok _ => Decidable.isFalse (fun hh => Except.noConfusion hh)

/-- Str is the model of a Go string: a list of byte-sized characters. -/
abbrev Str := List Char

/-- quote character `"` (byte 34). -/
def qC : Char := Char.ofNat 34

/-- apostrophe character (byte 39). -/
def apC : Char := Char.ofNat 39

/-- backslash character (byte 92). -/
def bsC : Char := Char.ofNat 92

/-- opening brace character (byte 123). -/
def obC : Char := Char.ofNat 123

/-- closing brace character (byte 125). -/
def cbC : Char := Char.ofNat 125

/-- newline character (byte 10). -/
def nlC : Char := Char.ofNat 10

/-- dollar character (byte 36). -/
def dolC : Char := Char.ofNat 36

/-- character class `[a-zA-Z0-9$]` used by the locator's regular expressions. -/
def isIdentChar (c : Char) : Bool := c.isAlphanum || c = dolC

/-- word characters `[A-Za-z0-9_]` for the regexp `\b` boundary assertion. -/
def isWordChar (c : Char) : Bool := c.isAlphanum || c = '_'

/-- character class `\s` of Go's regexp package: `[\t\n\f\r ]`. -/
def isSpaceRE (c : Char) : Bool :=
  c = ' ' || c = '\t' || c = nlC || c = '\x0c' || c = '\r'

/-- split at the longest initial run satisfying `p` (the pair
`(takeWhile, dropWhile)`), the deterministic reading of a greedy character
class in the patterns modelled below. -/
def spanTW (p : Char → Bool) (s : Str) : Str × Str := (s.takeWhile p, s.dropWhile p)

/-- consume the literal `lit` from the front of `s`; `none` when `s` does not
start with it. -/
def dropLit : Str → Str → Option Str
  | [], s => some s
  | _ :: _, [] => none
  | c :: cs, d :: ds => if d = c then dropLit cs ds else none

/-- test whether `p` is an initial segment of `s`. -/
def hasPre (p s : Str) : Bool :=
  match dropLit p s with
  | some _ => true
  | none => false

/-- model of Go `strings.Contains s sub`. -/
def hasSub (sub : Str) : Str → Bool
  | [] => hasPre sub []
  | s@(_ :: rest) => hasPre sub s || hasSub sub rest

/-- test whether the byte `c` occurs in `s` (single-character `strings.Contains`). -/
def hasCh (c : Char) (s : Str) : Bool := s.any (· = c)

/-- value of a hexadecimal digit, `none` for non-hex characters. -/
def hexDigitVal (c : Char) : Option Nat :=
  if '0' ≤ c ∧ c ≤ '9' then some (c.toNat - 48)
  else if 'a' ≤ c ∧ c ≤ 'f' then some (c.toNat - 87)
  else if 'A' ≤ c ∧ c ≤ 'F' then some (c.toNat - 55)
  else none

/-- model of Go `url.QueryUnescape`: `%XX` becomes the byte `XX`, `+` becomes
a space, a malformed escape is an error. -/
def queryUnescape : Str → Option Str
  | [] => some []
  | '%' :: a :: b :: rest =>
    match hexDigitVal a, hexDigitVal b with
    | some ha, some hb => (queryUnescape rest).map (fun t => Char.ofNat (16 * ha + hb) :: t)
    | _, _ => none
  | '%' :: _ => none
  | '+' :: rest => (queryUnescape rest).map (fun t => ' ' :: t)
  | c :: rest => (queryUnescape rest).map (fun t => c :: t)

/-- bytes Go's `url.QueryEscape` leaves untouched. -/
def isUnreservedQ (c : Char) : Bool :=
  c.isAlphanum || c = '-' || c = '_' || c = '.' || c = '~'

/-- upper-case hexadecimal digit for `n < 16`. -/
def hexUpper (n : Nat) : Char :=
  if n < 10 then Char.ofNat (48 + n) else Char.ofNat (55 + n)

/-- model of Go `url.QueryEscape`: unreserved bytes kept, space becomes `+`,
every other byte becomes `%XX`. -/
def queryEscape : Str → Str
  | [] => []
  | c :: rest =>
    if isUnreservedQ c then c :: queryEscape rest
    else if c = ' ' then '+' :: queryEscape rest
    else '%' :: hexUpper (c.toNat / 16 % 16) :: hexUpper (c.toNat % 16) :: queryEscape rest

/-- split on `&` keeping empty pieces, mirroring the `strings.Cut` loop of
Go's `url.ParseQuery`. -/
def splitAmpGo (cur : Str) : Str → List Str
  | [] => [cur.reverse]
  | '&' :: rest => cur.reverse :: splitAmpGo [] rest
  | c :: rest => splitAmpGo (c :: cur) rest

/-- model of Go `strings.Cut` at the byte `sep`: text before the first `sep`
and text after it (empty when `sep` is absent). -/
def cutAt (sep : Char) (s : Str) : Str × Str :=
  (s.takeWhile (· ≠ sep),
   match s.dropWhile (· ≠ sep) with
   | [] => []
   | _ :: t => t)

/-- body of Go `url.ParseQuery`: pieces with a `;` or with a bad escape are
skipped and flagged as an error, the rest become key/value pairs in input
order.  The `Bool` is `true` when `ParseQuery` would return a non-nil error. -/
def parsePairsGo : List Str → List (Str × Str) × Bool
  | [] => ([], false)
  | piece :: rest =>
    let (ps, e) := parsePairsGo rest
    if piece = [] then (ps, e)
    else if hasCh ';' piece then (ps, true)
    else
      let kv := cutAt '=' piece
      match queryUnescape kv.1, queryUnescape kv.2 with
      | some k2, some v2 => ((k2, v2) :: ps, e)
      | _, _ => (ps, true)

/-- model of Go `url.ParseQuery`: ordered pairs plus an error flag. -/
def parsePairs (s : Str) : List (Str × Str) × Bool := parsePairsGo (splitAmpGo [] s)

/-- model of Go `url.Values.Get`: the value of the first pair bearing the key,
empty when the key is absent. -/
def getParam : List (Str × Str) → Str → Str
  | [], _ => []
  | (k2, v) :: rest, k => if k2 = k then v else getParam rest k

/-- Format mirrors the Go struct `Format` (itag, MIME type, quality, URL). -/
structure Format where
  Itag : Int
  Video_type : Str
  Quality : Str
  Url : Str
  deriving Repr, DecidableEq

/-- Video mirrors the Go struct `Video`; the never-assigned float field
`Avg_rating` is omitted from the model. -/
structure Video where
  Id : Str
  Title : Str
  Author : Str
  Keywords : Str
  Thumbnail_url : Str
  View_count : Int
  Length_seconds : Int
  Formats : List Format
  Filename : Str
  deriving Repr, DecidableEq

/-- loop of `Video.IndexByItag`, carrying the running index. -/
def indexFrom (t : Int) : Nat → List Format → Nat × Option Format
  | _, [] => (0, none)
  | i, f :: fs => if f.Itag = t then (i, some f) else indexFrom t (i + 1) fs

/-- model of `(*Video).IndexByItag`: index and pointer of the first format
with the requested itag; `(0, nil)` when none matches. -/
def IndexByItag (v : Video) (t : Int) : Nat × Option Format := indexFrom t 0 v.Formats

/-- scan every start position left to right and keep the first match,
mirroring Go regexp's leftmost semantics for the deterministic patterns
modelled here. -/
def scanFirst (f : Str → Option α) : Str → Option α
  | [] => none
  | s@(_ :: rest) =>
    match f s with
    | some m => some m
    | none => scanFirst f rest

/-- state of the structural brace scans in `extractHelperObject` and
`extractFullDecryptFunction`: brace depth, in-string flag, pending escape,
and the opening quote character. -/
structure ScanSt where
  depth : Int
  inStr : Bool
  esc : Bool
  sc : Char
  deriving Repr, DecidableEq

/-- initial scanner state. -/
def st0 : ScanSt := { depth := 0, inStr := false, esc := false, sc := ' ' }

/-- one step of the `extractFullDecryptFunction` scanner: an escape makes the
next byte literal, quotes open or close a string when matching the opening
quote, and braces change depth only outside strings. -/
def stepF (st : ScanSt) (c : Char) : ScanSt :=
  if st.esc then { st with esc := false }
  else if c = bsC then { st with esc := true }
  else if c = qC ∨ c = apC then
    if !st.inStr then { st with inStr := true, sc := c }
    else if c = st.sc then { st with inStr := false }
    else st
  else if !st.inStr ∧ c = obC then { st with depth := st.depth + 1 }
  else if !st.inStr ∧ c = cbC then { st with depth := st.depth - 1 }
  else st

/-- one step of the `extractHelperObject` fallback scanner: identical except
that either quote kind toggles the in-string flag. -/
def stepH (st : ScanSt) (c : Char) : ScanSt :=
  if st.esc then { st with esc := false }
  else if c = bsC then { st with esc := true }
  else if c = qC ∨ c = apC then { st with inStr := !st.inStr }
  else if !st.inStr ∧ c = obC then { st with depth := st.depth + 1 }
  else if !st.inStr ∧ c = cbC then { st with depth := st.depth - 1 }
  else st

/-- structural scan of `extractFullDecryptFunction`: consume bytes updating
the state, returning the consumed text up to and including the brace that
returns the depth to zero; `none` when the input is exhausted first. -/
def braceScanF : ScanSt → Str → Str → Option Str
  | _, _, [] => none
  | st, acc, c :: rest =>
    if !st.esc ∧ !st.inStr ∧ c = cbC ∧ st.depth = 1 then some (acc.reverse ++ [c])
    else braceScanF (stepF st c) (c :: acc) rest

/-- structural scan of the `extractHelperObject` fallback path. -/
def braceScanH : ScanSt → Str → Str → Option Str
  | _, _, [] => none
  | st, acc, c :: rest =>
    if !st.esc ∧ !st.inStr ∧ c = cbC ∧ st.depth = 1 then some (acc.reverse ++ [c])
    else braceScanH (stepH st c) (c :: acc) rest

/-- check that the function-variant scanner run over the whole text ends at
depth zero outside any string: the brace-balance property of a fragment. -/
def balancesToZero (s : Str) : Bool :=
  let st := s.foldl stepF st0
  st.depth == 0 && !st.inStr

/-- tail of locator patterns 1 and 2 after the captured identifier:
the part matching the regexp text
`\s*=\s*function\(\s*a\s*\)\s*\x7b\s*a\s*=\s*a\.split\(\s*""\s*\)`;
returns the remaining input after the closing parenthesis. -/
def p1TailRest (s0 : Str) : Option Str := do
  let s ← dropLit ['='] (s0.dropWhile isSpaceRE)
  let s ← dropLit "function(".data (s.dropWhile isSpaceRE)
  let s ← dropLit ['a'] (s.dropWhile isSpaceRE)
  let s ← dropLit [')'] (s.dropWhile isSpaceRE)
  let s ← dropLit [obC] (s.dropWhile isSpaceRE)
  let s ← dropLit ['a'] (s.dropWhile isSpaceRE)
  let s ← dropLit ['='] (s.dropWhile isSpaceRE)
  let s ← dropLit ('a' :: ".split(".data) (s.dropWhile isSpaceRE)
  let s ← dropLit [qC, qC] (s.dropWhile isSpaceRE)
  dropLit [')'] (s.dropWhile isSpaceRE)

/-- locator pattern 1 tried at one position: a `\b` boundary, a 2+ byte
identifier, then the split-function tail. -/
def p1At (prevW : Bool) (s : Str) : Option Str :=
  match s with
  | [] => none
  | c :: _ =>
    if prevW = isWordChar c then none
    else if (spanTW isIdentChar s).1.length < 2 then none
    else if (p1TailRest (spanTW isIdentChar s).2).isSome then some (spanTW isIdentChar s).1
    else none

/-- locator pattern 2 tried at one position: pattern 1 followed by `;`. -/
def p2At (prevW : Bool) (s : Str) : Option Str :=
  match s with
  | [] => none
  | c :: _ =>
    if prevW = isWordChar c then none
    else if (spanTW isIdentChar s).1.length < 2 then none
    else
      match p1TailRest (spanTW isIdentChar s).2 with
      | some r => if (dropLit [';'] r).isSome then some (spanTW isIdentChar s).1 else none
      | none => none

/-- locator pattern 3 tried at one position: regexp text
`([a-zA-Z0-9$]+)=function\(a\)\x7ba=a\.split\(""\);([a-zA-Z0-9$]+)\.`
capturing function and helper names. -/
def p3At (s : Str) : Option (Str × Str) :=
  if (spanTW isIdentChar s).1 = [] then none
  else
    match dropLit ("=function(a)".data ++ [obC] ++ "a=a.split(".data ++ [qC, qC] ++ ");".data)
        (spanTW isIdentChar s).2 with
    | none => none
    | some r =>
      if (spanTW isIdentChar r).1 = [] then none
      else if (dropLit ['.'] (spanTW isIdentChar r).2).isSome then
        some ((spanTW isIdentChar s).1, (spanTW isIdentChar r).1)
      else none

/-- locator pattern 4 tried at one position: regexp text
`\b([a-zA-Z0-9$]+)\s*=\s*function\([a-zA-Z]\)\x7b[a-zA-Z]=([a-zA-Z])\.split\(""\)`;
its second capture is the single-letter split variable. -/
def p4At (prevW : Bool) (s : Str) : Option (Str × Str) :=
  match s with
  | [] => none
  | c :: _ =>
    if prevW = isWordChar c then none
    else if (spanTW isIdentChar s).1 = [] then none
    else
      match dropLit ['='] ((spanTW isIdentChar s).2.dropWhile isSpaceRE) with
      | none => none
      | some r1 =>
        match dropLit "function(".data (r1.dropWhile isSpaceRE) with
        | none => none
        | some r2 =>
          match r2 with
          | [] => none
          | pc :: r3 =>
            if !pc.isAlpha then none
            else
              match dropLit (')' :: [obC]) r3 with
              | none => none
              | some r4 =>
                match r4 with
                | [] => none
                | vc :: r5 =>
                  if !vc.isAlpha then none
                  else
                    match dropLit ['='] r5 with
                    | none => none
                    | some r6 =>
                      match r6 with
                      | [] => none
                      | hc :: r7 =>
                        if !hc.isAlpha then none
                        else
                          match dropLit (".split(".data ++ [qC, qC] ++ [')']) r7 with
                          | none => none
                          | some _ => some ((spanTW isIdentChar s).1, [hc])

/-- secondary helper-recovery pattern anchored on the known function name:
regexp text
`FN=function\([a-zA-Z]\)\x7b[a-zA-Z]=[a-zA-Z]\.split\(""\);([a-zA-Z0-9$]+)\.` -/
def secAt (fn : Str) (s : Str) : Option Str := do
  let r ← dropLit fn s
  let r ← dropLit "=function(".data r
  match r with
  | pc :: r =>
    if !pc.isAlpha then none
    else do
      let r ← dropLit (')' :: [obC]) r
      match r with
      | vc :: r =>
        if !vc.isAlpha then none
        else do
          let r ← dropLit ['='] r
          match r with
          | hc :: r =>
            if !hc.isAlpha then none
            else do
              let r ← dropLit (".split(".data ++ [qC, qC] ++ ");".data) r
              let hp := spanTW isIdentChar r
              if hp.1 = [] then none
              else if (dropLit ['.'] hp.2).isSome then some hp.1 else none
          | [] => none
      | [] => none
  | [] => none

/-- leftmost scan for pattern 1, carrying whether the previous byte is a word
character for the `\b` assertion. -/
def scanP1 : Bool → Str → Option Str
  | _, [] => none
  | prevW, s@(c :: rest) =>
    match p1At prevW s with
    | some n => some n
    | none => scanP1 (isWordChar c) rest

/-- leftmost scan for pattern 2. -/
def scanP2 : Bool → Str → Option Str
  | _, [] => none
  | prevW, s@(c :: rest) =>
    match p2At prevW s with
    | some n => some n
    | none => scanP2 (isWordChar c) rest

/-- leftmost scan for pattern 4. -/
def scanP4 : Bool → Str → Option (Str × Str)
  | _, [] => none
  | prevW, s@(c :: rest) =>
    match p4At prevW s with
    | some nh => some nh
    | none => scanP4 (isWordChar c) rest

/-- model of `extractDecryptFunction`: try the four locator patterns in
order, keep the first match, and when that match exposed no helper name run
the secondary pattern anchored on the found function name. -/
def extractDecryptFunction (playerCode : Str) : Except String (Str × Str) :=
  let found : Option (Str × Str) :=
    match scanP1 false playerCode with
    | some n => some (n, [])
    | none =>
      match scanP2 false playerCode with
      | some n => some (n, [])
      | none =>
        match scanFirst p3At playerCode with
        | some nh => some nh
        | none => scanP4 false playerCode
  match found with
  | none => Except.error "could not find decryption function"
  | some (fn, hn) =>
    if hn = [] then
      match scanFirst (secAt fn) playerCode with
      | some h => Except.ok (fn, h)
      | none => Except.ok (fn, [])
    else Except.ok (fn, hn)

/-- naive helper-object pattern 1 at one position: regexp text
`var NM=\x7b[^\x7d]+\x7d`. -/
def naive1At (nm : Str) (s : Str) : Option Str := do
  let r ← dropLit ("var ".data ++ nm ++ ['=', obC]) s
  let pr := spanTW (fun c => c ≠ cbC) r
  if pr.1 = [] then none
  else
    match pr.2 with
    | c :: _ =>
      if c = cbC then some ("var ".data ++ nm ++ ['=', obC] ++ pr.1 ++ [cbC]) else none
    | [] => none

/-- naive helper-object pattern 2 at one position: pattern 1 without `var `. -/
def naive2At (nm : Str) (s : Str) : Option Str := do
  let r ← dropLit (nm ++ ['=', obC]) s
  let pr := spanTW (fun c => c ≠ cbC) r
  if pr.1 = [] then none
  else
    match pr.2 with
    | c :: _ =>
      if c = cbC then some (nm ++ ['=', obC] ++ pr.1 ++ [cbC]) else none
    | [] => none

/-- naive helper-object pattern 3 at one position: regexp text
`var NM=\x7b[^;]+\x7d;`; after the greedy run of non-semicolon bytes the
regexp backtracks one byte, so it matches exactly when the byte before the
first `;` is a closing brace. -/
def naive3At (nm : Str) (s : Str) : Option Str := do
  let r ← dropLit ("var ".data ++ nm ++ ['=', obC]) s
  let pr := spanTW (fun c => c ≠ ';') r
  if pr.1.length < 2 then none
  else
    match pr.2, pr.1.getLast? with
    | ';' :: _, some lastc =>
      if lastc = cbC then some ("var ".data ++ nm ++ ['=', obC] ++ pr.1 ++ [';']) else none
    | _, _ => none

/-- fallback start pattern `(var )?NM=\x7b` at one position, preferring the
`var`-prefixed alternative as Go's leftmost-first matching does; returns the
matched text before the brace and the rest starting at the brace. -/
def helperStartAt (nm : Str) (s : Str) : Option (Str × Str) :=
  match (do
    let r ← dropLit ("var ".data ++ nm ++ ['=']) s
    match r with
    | c :: _ => if c = obC then some ("var ".data ++ nm ++ ['='], r) else none
    | [] => none : Option (Str × Str)) with
  | some x => some x
  | none =>
    (do
      let r ← dropLit (nm ++ ['=']) s
      match r with
      | c :: _ => if c = obC then some (nm ++ ['='], r) else none
      | [] => none)

/-- append a trailing `;` unless already present (`strings.HasSuffix` check). -/
def addSemi (s : Str) : Str := if s.getLast? = some ';' then s else s ++ [';']

/-- model of `extractHelperObject`: an empty name yields the empty fragment;
otherwise the three naive regexp patterns are tried first over the whole
blob, and only when all fail does the structural brace scan run from the
`(var )?NM=\x7b` anchor; the result gets a trailing `;`. -/
def extractHelperObject (playerCode nm : Str) : Except String Str :=
  if nm = [] then Except.ok []
  else
    let m : Option Str :=
      match scanFirst (naive1At nm) playerCode with
      | some mm => some mm
      | none =>
        match scanFirst (naive2At nm) playerCode with
        | some mm => some mm
        | none => scanFirst (naive3At nm) playerCode
    match m with
    | some mm => Except.ok (addSemi mm)
    | none =>
      match scanFirst (helperStartAt nm) playerCode with
      | none => Except.error "could not find helper object"
      | some (hdr, rest) =>
        match braceScanH st0 [] rest with
        | none => Except.error "could not find helper object"
        | some body => Except.ok (addSemi (hdr ++ body))

/-- anchor pattern of `extractFullDecryptFunction` at one position: regexp
text `FN=function\([a-zA-Z0-9]+\)\x7b`; returns the matched header before
the brace and the rest starting at the brace. -/
def funcHeaderAt (fn : Str) (s : Str) : Option (Str × Str) :=
  match dropLit (fn ++ "=function(".data) s with
  | none => none
  | some r =>
    if (spanTW (fun c => c.isAlphanum) r).1 = [] then none
    else
      match dropLit [')'] (spanTW (fun c => c.isAlphanum) r).2 with
      | none => none
      | some r2 =>
        match r2 with
        | [] => none
        | c :: _ =>
          if c = obC then
            some (fn ++ "=function(".data ++ (spanTW (fun c => c.isAlphanum) r).1 ++ [')'], r2)
          else none

/-- leftmost search for the function-definition anchor, also returning the
text before the match. -/
def findDefStart (fn : Str) (pre : Str) : Str → Option (Str × Str × Str)
  | [] => none
  | s@(c :: rest) =>
    match funcHeaderAt fn s with
    | some (hdr, r) => some (pre.reverse, hdr, r)
    | none => findDefStart fn (c :: pre) rest

/-- model of `extractFullDecryptFunction`: locate the definition's opening
brace via the anchored pattern, run the structural scan, and wrap the result
as `var ...;`. -/
def extractFullDecryptFunction (playerCode fn : Str) : Except String Str :=
  match findDefStart fn [] playerCode with
  | none => Except.error "could not find function definition"
  | some (_, hdr, rest) =>
    match braceScanF st0 [] rest with
    | none => Except.error "could not find complete function definition"
    | some body => Except.ok ("var ".data ++ hdr ++ body ++ [';'])

/-- JSValue models a goja value as far as the resolver observes it. -/
inductive JSValue where
  | str (s : Str)
  | num (n : Int)
  | boolv (b : Bool)
  | undef
  deriving Repr, DecidableEq

/-- model of `goja.Value.String()`: the total ECMAScript ToString conversion,
defined for every value, not only strings. -/
def jsToString : JSValue → Str
  | JSValue.str s => s
  | JSValue.num n => (toString n).data
  | JSValue.boolv b => if b then "true".data else "false".data
  | JSValue.undef => "undefined".data

/-- JSEngine abstracts the goja VM: `exec hist src` runs source `src` in a
context that has previously executed exactly the scripts `hist` (a fresh VM
has `hist = []`); an error models a parse or throw. -/
structure JSEngine where
  exec : List Str → Str → Except Unit JSValue

/-- the helper fragment loaded by `decryptSignature`: the extraction error is
discarded (`helperCode, _ := extractHelperObject(...)`), leaving it empty. -/
def helperCodeOf (playerCode helperName : Str) : Str :=
  match extractHelperObject playerCode helperName with
  | Except.ok h => h
  | Except.error _ => []

/-- the invocation script `fmt.Sprintf` builds: the function name applied to
the signature quoted as a string literal. -/
def callStrOf (funcName signature : Str) : Str :=
  funcName ++ ['(', qC] ++ signature ++ [qC, ')']

/-- model of `decryptSignature`: locate the function, extract helper (errors
ignored) and function fragments, then run them in a fresh VM — helper first
when present, then the function, then the invocation with the signature
quoted as a string literal — and return the string conversion of the result. -/
def decryptSignature (E : JSEngine) (signature playerCode : Str) : Except String Str :=
  match extractDecryptFunction playerCode with
  | Except.error e => Except.error e
  | Except.ok (funcName, helperName) =>
    let helperCode := helperCodeOf playerCode helperName
    match extractFullDecryptFunction playerCode funcName with
    | Except.error e => Except.error e
    | Except.ok funcCode =>
      let afterHelper : Except String (List Str) :=
        if helperCode = [] then Except.ok []
        else
          match E.exec [] helperCode with
          | Except.error _ => Except.error "failed to execute helper code"
          | Except.ok _ => Except.ok [helperCode]
      match afterHelper with
      | Except.error e => Except.error e
      | Except.ok hist1 =>
        match E.exec hist1 funcCode with
        | Except.error _ => Except.error "failed to execute function code"
        | Except.ok _ =>
          let call := callStrOf funcName signature
          match E.exec (hist1 ++ [funcCode]) call with
          | Except.error _ => Except.error "failed to decrypt signature"
          | Except.ok v => Except.ok (jsToString v)

/-- model of `decipherURL`: parse the cipher, demand a base URL, return it
unchanged when no `s` parameter exists, otherwise append the decrypted
signature query-escaped under the `sp` name (default `signature`). -/
def decipherURL (E : JSEngine) (signatureCipher playerCode : Str) : Except String Str :=
  match parsePairs signatureCipher with
  | (_, true) => Except.error "invalid signature cipher"
  | (params, false) =>
    let baseURL := getParam params "url".data
    let signature := getParam params "s".data
    if baseURL = [] then Except.error "no URL in signature cipher"
    else if signature = [] then Except.ok baseURL
    else
      match decryptSignature E signature playerCode with
      | Except.error e => Except.error e
      | Except.ok dec =>
        let sp := getParam params "sp".data
        let sigParam := if sp = [] then "signature".data else sp
        if hasCh '?' baseURL then
          Except.ok (baseURL ++ ['&'] ++ sigParam ++ ['='] ++ queryEscape dec)
        else
          Except.ok (baseURL ++ ['?'] ++ sigParam ++ ['='] ++ queryEscape dec)

/-- streamFormat mirrors the Go struct `streamFormat` filled from the
manifest JSON. -/
structure streamFormat where
  Itag : Int
  URL : Str
  SignatureCipher : Str
  MimeType : Str
  Quality : Str
  Width : Int
  Height : Int
  Bitrate : Int
  deriving Repr, DecidableEq

/-- zero value of `streamFormat`. -/
def streamFormat.zero : streamFormat := ⟨0, [], [], [], [], 0, 0, 0⟩

/-- quality label policy of the `parseMeta` loop: explicit quality, else
`"Np"` from a positive height, else `"unknown"`. -/
def qualityLabel (f : streamFormat) : Str :=
  if f.Quality ≠ [] then f.Quality
  else if f.Height > 0 then (toString f.Height).data ++ ['p']
  else "unknown".data

/-- URL computed for one descriptor by the `parseMeta` loop: the direct URL
when present; otherwise the cipher's `url` value, upgraded to the deciphered
URL only when player code is available, an `s` parameter exists and the
descrambling chain succeeds. -/
def resolvedURL (E : JSEngine) (playerCode : Str) (f : streamFormat) : Str :=
  if f.URL ≠ [] then f.URL
  else if f.SignatureCipher = [] then []
  else
    match parsePairs f.SignatureCipher with
    | (_, true) => []
    | (cipherParams, false) =>
      let base := getParam cipherParams "url".data
      if playerCode = [] then base
      else
        let signature := getParam cipherParams "s".data
        if signature = [] then base
        else
          match decipherURL E f.SignatureCipher playerCode with
          | Except.ok u => u
          | Except.error _ => base

/-- one iteration of the `parseMeta` loop: descriptors without a resolvable
URL are skipped, the rest become a `Format`. -/
def resolveOne (E : JSEngine) (playerCode : Str) (f : streamFormat) : Option Format :=
  let u := resolvedURL E playerCode f
  if u = [] then none
  else some { Itag := f.Itag, Video_type := f.MimeType, Quality := qualityLabel f, Url := u }

/-- the Format value built for a descriptor whose URL resolves (the record
`resolveOne` returns in its `some` branch). -/
def fmtOf (E : JSEngine) (playerCode : Str) (f : streamFormat) : Format :=
  { Itag := f.Itag, Video_type := f.MimeType, Quality := qualityLabel f,
    Url := resolvedURL E playerCode f }

/-- the `parseMeta` loop over all descriptors, appending to the accumulated
`video.Formats` exactly as the Go `for` loop does. -/
def processFormats (E : JSEngine) (playerCode : Str) : List streamFormat → List Format → List Format
  | [], acc => acc
  | f :: fs, acc =>
    match resolveOne E playerCode f with
    | none => processFormats E playerCode fs acc
    | some fmt => processFormats E playerCode fs (acc ++ [fmt])

/-- JSON token for the model of `encoding/json` syntax checking. -/
inductive JTok where
  | lbrace | rbrace | lbrack | rbrack | colon | comma
  | jnull | jtrue | jfalse
  | jstr (s : Str)
  | jnum (raw : Str)
  deriving Repr, DecidableEq

/-- scan the remainder of a JSON string literal after the opening quote,
returning the decoded text and the rest after the closing quote; raw control
bytes and malformed escapes are errors. -/
def jsonStrTail : Str → Option (Str × Str)
  | [] => none
  | c :: rest =>
    if c = qC then some ([], rest)
    else if c = bsC then
      match rest with
      | [] => none
      | e :: rest2 =>
        if e = qC then (jsonStrTail rest2).map (fun p => (qC :: p.1, p.2))
        else if e = bsC then (jsonStrTail rest2).map (fun p => (bsC :: p.1, p.2))
        else if e = '/' then (jsonStrTail rest2).map (fun p => ('/' :: p.1, p.2))
        else if e = 'b' then (jsonStrTail rest2).map (fun p => (Char.ofNat 8 :: p.1, p.2))
        else if e = 'f' then (jsonStrTail rest2).map (fun p => (Char.ofNat 12 :: p.1, p.2))
        else if e = 'n' then (jsonStrTail rest2).map (fun p => (nlC :: p.1, p.2))
        else if e = 'r' then (jsonStrTail rest2).map (fun p => (Char.ofNat 13 :: p.1, p.2))
        else if e = 't' then (jsonStrTail rest2).map (fun p => ('\t' :: p.1, p.2))
        else if e = 'u' then
          match rest2 with
          | a :: b :: c2 :: d :: rest3 =>
            match hexDigitVal a, hexDigitVal b, hexDigitVal c2, hexDigitVal d with
            | some ha, some hb, some hc, some hd =>
              (jsonStrTail rest3).map
                (fun p => (Char.ofNat (((ha * 16 + hb) * 16 + hc) * 16 + hd) :: p.1, p.2))
            | _, _, _, _ => none
          | _ => none
        else none
    else if c.toNat < 32 then none
    else (jsonStrTail rest).map (fun p => (c :: p.1, p.2))

/-- maximal run of decimal digits. -/
def digitsSpan (s : Str) : Str × Str := spanTW (fun c => c.isDigit) s

/-- optional fraction and exponent of a JSON number; fails on a dangling
`.` or exponent marker. -/
def jsonFracExp (s : Str) : Option (Str × Str) := do
  let fe : Str × Str ←
    match s with
    | '.' :: t =>
      let d := digitsSpan t
      if d.1 = [] then none else some ('.' :: d.1, d.2)
    | _ => some ([], s)
  match fe.2 with
  | e :: t =>
    if e = 'e' ∨ e = 'E' then
      let sg : Str × Str :=
        match t with
        | '+' :: u => (['+'], u)
        | '-' :: u => (['-'], u)
        | _ => ([], t)
      let d := digitsSpan sg.2
      if d.1 = [] then none else some (fe.1 ++ e :: sg.1 ++ d.1, d.2)
    else some fe
  | [] => some fe

/-- scan a JSON number token (optional minus, integer part without leading
zeros, optional fraction and exponent). -/
def jsonNumTok (s : Str) : Option (Str × Str) :=
  let sgp : Str × Str :=
    match s with
    | '-' :: t => (['-'], t)
    | _ => ([], s)
  match sgp.2 with
  | [] => none
  | '0' :: t => (jsonFracExp t).map (fun p => (sgp.1 ++ '0' :: p.1, p.2))
  | c :: _ =>
    if c.isDigit then
      let d := digitsSpan sgp.2
      (jsonFracExp d.2).map (fun p => (sgp.1 ++ d.1 ++ p.1, p.2))
    else none

/-- tokenize JSON text; `fuel` is spent one unit per byte at least, so
`length + 1` always suffices. -/
def tokenize : Nat → Str → Option (List JTok)
  | 0, _ => none
  | _ + 1, [] => some []
  | fuel + 1, c :: rest =>
    if c = ' ' ∨ c = '\t' ∨ c = nlC ∨ c = Char.ofNat 13 then tokenize fuel rest
    else if c = obC then (tokenize fuel rest).map (fun t => JTok.lbrace :: t)
    else if c = cbC then (tokenize fuel rest).map (fun t => JTok.rbrace :: t)
    else if c = '[' then (tokenize fuel rest).map (fun t => JTok.lbrack :: t)
    else if c = ']' then (tokenize fuel rest).map (fun t => JTok.rbrack :: t)
    else if c = ':' then (tokenize fuel rest).map (fun t => JTok.colon :: t)
    else if c = ',' then (tokenize fuel rest).map (fun t => JTok.comma :: t)
    else if c = qC then
      match jsonStrTail rest with
      | some (s, rest2) => (tokenize fuel rest2).map (fun t => JTok.jstr s :: t)
      | none => none
    else if c = 't' then
      match dropLit "rue".data rest with
      | some rest2 => (tokenize fuel rest2).map (fun t => JTok.jtrue :: t)
      | none => none
    else if c = 'f' then
      match dropLit "alse".data rest with
      | some rest2 => (tokenize fuel rest2).map (fun t => JTok.jfalse :: t)
      | none => none
    else if c = 'n' then
      match dropLit "ull".data rest with
      | some rest2 => (tokenize fuel rest2).map (fun t => JTok.jnull :: t)
      | none => none
    else if c = '-' ∨ c.isDigit then
      match jsonNumTok (c :: rest) with
      | some (tok, rest2) => (tokenize fuel rest2).map (fun t => JTok.jnum tok :: t)
      | none => none
    else none

/-- Json value tree; numbers keep their raw token as `encoding/json` decodes
them per target type from the literal. -/
inductive Json where
  | jnull
  | jbool (b : Bool)
  | jnum (raw : Str)
  | jstr (s : Str)
  | jarr (xs : List Json)
  | jobj (kvs : List (Str × Json))
  deriving Repr

/-- stack frame of the JSON parsing machine: a partial array or a partial
object waiting for its current key's value. -/
inductive JFrame where
  | arrF (acc : List Json)
  | objF (acc : List (Str × Json)) (key : Str)
  deriving Repr

/-- job of the JSON parsing machine: read a value, or reduce one into the
enclosing frame. -/
inductive JJob where
  | value
  | reduce (v : Json)
  deriving Repr

/-- shift-reduce JSON parser over the token list; every transition consumes
at least one token, so `length + 1` fuel always suffices; the whole token
list must be consumed (no trailing data after the top-level value). -/
def parseMachine : Nat → JJob → List JTok → List JFrame → Option Json
  | 0, _, _, _ => none
  | fuel + 1, JJob.value, toks, stack =>
    match toks with
    | JTok.jnull :: rest => parseMachine fuel (JJob.reduce Json.jnull) rest stack
    | JTok.jtrue :: rest => parseMachine fuel (JJob.reduce (Json.jbool true)) rest stack
    | JTok.jfalse :: rest => parseMachine fuel (JJob.reduce (Json.jbool false)) rest stack
    | JTok.jstr s :: rest => parseMachine fuel (JJob.reduce (Json.jstr s)) rest stack
    | JTok.jnum r :: rest => parseMachine fuel (JJob.reduce (Json.jnum r)) rest stack
    | JTok.lbrack :: JTok.rbrack :: rest => parseMachine fuel (JJob.reduce (Json.jarr [])) rest stack
    | JTok.lbrack :: rest => parseMachine fuel JJob.value rest (JFrame.arrF [] :: stack)
    | JTok.lbrace :: JTok.rbrace :: rest => parseMachine fuel (JJob.reduce (Json.jobj [])) rest stack
    | JTok.lbrace :: JTok.jstr k :: JTok.colon :: rest =>
      parseMachine fuel JJob.value rest (JFrame.objF [] k :: stack)
    | _ => none
  | fuel + 1, JJob.reduce v, toks, stack =>
    match stack with
    | [] => match toks with | [] => some v | _ => none
    | JFrame.arrF acc :: stack2 =>
      match toks with
      | JTok.comma :: rest => parseMachine fuel JJob.value rest (JFrame.arrF (v :: acc) :: stack2)
      | JTok.rbrack :: rest =>
        parseMachine fuel (JJob.reduce (Json.jarr (v :: acc).reverse)) rest stack2
      | _ => none
    | JFrame.objF acc k :: stack2 =>
      match toks with
      | JTok.comma :: JTok.jstr k2 :: JTok.colon :: rest =>
        parseMachine fuel JJob.value rest (JFrame.objF ((k, v) :: acc) k2 :: stack2)
      | JTok.rbrace :: rest =>
        parseMachine fuel (JJob.reduce (Json.jobj ((k, v) :: acc).reverse)) rest stack2
      | _ => none

/-- parse JSON text to a value; `none` exactly when `encoding/json` would
report a syntax error on the text. -/
def jsonParse (s : Str) : Option Json :=
  match tokenize (s.length + 1) s with
  | none => none
  | some toks => parseMachine (toks.length + 1) JJob.value toks []

/-- signed decimal value of a digit run. -/
def digitsToInt (ds : Str) : Int := ds.foldl (fun a c => a * 10 + ((c.toNat : Int) - 48)) 0

/-- unsigned decimal value of a digit run. -/
def digitsToNat (ds : Str) : Nat := ds.foldl (fun a c => a * 10 + (c.toNat - 48)) 0

/-- ASCII lower-casing, for `encoding/json`'s case-insensitive field match. -/
def asciiLower (c : Char) : Char :=
  if 'A' ≤ c ∧ c ≤ 'Z' then Char.ofNat (c.toNat + 32) else c

/-- key-to-tag matching of `encoding/json`: an exact match, else the
case-insensitive fallback; since no two tags in these structs collide
case-insensitively, folded comparison is equivalent (ASCII folding — the
exotic Unicode folds of `bytes.EqualFold` do not arise for the byte-level
strings modelled here). -/
def keyFold (k tag : Str) : Bool := k.map asciiLower = tag.map asciiLower

/-- largest Go int64. -/
def maxInt64 : Int := 9223372036854775807

/-- smallest Go int64. -/
def minInt64 : Int := -9223372036854775808

/-- decode a JSON number token into a Go `int` field, as `encoding/json`
feeding the raw token to `strconv.ParseInt(s, 10, 64)`: any fraction,
exponent, or int64 overflow is an `UnmarshalTypeError`. -/
def intFromNum (raw : Str) : Option Int :=
  if hasCh '.' raw ∨ hasCh 'e' raw ∨ hasCh 'E' raw then none
  else
    match raw with
    | '-' :: ds =>
      if ds ≠ [] ∧ ds.all Char.isDigit ∧ minInt64 ≤ -(digitsToInt ds) then
        some (-(digitsToInt ds))
      else none
    | ds =>
      if ds ≠ [] ∧ ds.all Char.isDigit ∧ digitsToInt ds ≤ maxInt64 then some (digitsToInt ds)
      else none

/-- decode into a Go `string` field: strings set it, `null` leaves it, any
other value is a type error. -/
def jStrField (cur : Str) : Json → Except Unit Str
  | Json.jstr s => Except.ok s
  | Json.jnull => Except.ok cur
  | _ => Except.error ()

/-- decode into a Go `int` field. -/
def jIntField (cur : Int) : Json → Except Unit Int
  | Json.jnum raw =>
    match intFromNum raw with
    | some n => Except.ok n
    | none => Except.error ()
  | Json.jnull => Except.ok cur
  | _ => Except.error ()

/-- split a JSON number token into magnitude digits and a base-10 exponent:
the token denotes `± mant * 10 ^ k`. -/
def parseNumParts (raw : Str) : Nat × Int :=
  let r : Str :=
    match raw with
    | '-' :: t => t
    | t => t
  let ip := spanTW (fun c => c.isDigit) r
  let fp :=
    match ip.2 with
    | '.' :: t => spanTW (fun c => c.isDigit) t
    | _ => (([] : Str), ip.2)
  let ex : Int :=
    match fp.2 with
    | e :: t =>
      if e = 'e' ∨ e = 'E' then
        match t with
        | '-' :: ds => -(digitsToInt ds)
        | '+' :: ds => digitsToInt ds
        | ds => digitsToInt ds
      else 0
    | [] => 0
  (digitsToNat (ip.1 ++ fp.1), ex - fp.1.length)

/-- number of decimal digits of a natural number. -/
def ndigits10 (n : Nat) : Nat := (Nat.toDigits 10 n).length

/-- smallest magnitude that float64 round-to-nearest-even sends to infinity:
the IEEE-754 overflow threshold 2^1024 - 2^970, written as a literal so the
kernel evaluates comparisons against it directly. -/
def f64InfThreshold : Nat :=
  179769313486231580793728971405303415079934132710037826936173778980444968292764750946649017977587207096330286416692887910946555547851940402630657488671505820681908902000708383676273854845817711531764475730270069855571366959622842914819860834936475292719074168444365510704342711559699508093042880177904174497792

/-- whether `mant * 10 ^ k` overflows float64, i.e. `strconv.ParseFloat`
returns infinity with ErrRange and the decoder an `UnmarshalTypeError`;
underflow to zero is not an error.  The guards keep the exact comparison in
a bounded exponent range. -/
def decOverflows (mant : Nat) (k : Int) : Bool :=
  if mant = 0 then false
  else if 0 ≤ k then
    if (400 : Int) ≤ k then true
    else if f64InfThreshold ≤ mant * 10 ^ k.toNat then true else false
  else
    if ndigits10 mant ≤ (-k).toNat then false
    else if f64InfThreshold * 10 ^ (-k).toNat ≤ mant then true else false

/-- decode into a Go `float64` field: the value is unused downstream, but a
literal overflowing float64 is a decode error, as in `encoding/json`. -/
def jFloatField : Json → Except Unit Unit
  | Json.jnum raw =>
    if decOverflows (parseNumParts raw).1 (parseNumParts raw).2 then Except.error ()
    else Except.ok ()
  | Json.jnull => Except.ok ()
  | _ => Except.error ()

/-- decode a JSON array of strings into a `[]string` field. -/
def jStrList : List Json → Except Unit (List Str)
  | [] => Except.ok []
  | Json.jstr s :: rest => (jStrList rest).map (fun t => s :: t)
  | Json.jnull :: rest => (jStrList rest).map (fun t => [] :: t)
  | _ => Except.error ()

/-- thumbEntry mirrors the anonymous struct of one thumbnail list entry. -/
structure thumbEntry where
  URL : Str
  deriving Repr, DecidableEq

/-- field loop for one thumbnail entry (tag `url`, case-insensitive match;
unknown keys ignored). -/
def jThumbFields (cur : thumbEntry) : List (Str × Json) → Except Unit thumbEntry
  | [] => Except.ok cur
  | (k, v) :: rest =>
    if keyFold k "url".data then
      match jStrField cur.URL v with
      | Except.ok s => jThumbFields { URL := s } rest
      | Except.error e => Except.error e
    else jThumbFields cur rest

/-- decode one thumbnail entry. -/
def jThumbEntry : Json → Except Unit thumbEntry
  | Json.jobj kvs => jThumbFields { URL := [] } kvs
  | Json.jnull => Except.ok { URL := [] }
  | _ => Except.error ()

/-- decode the thumbnail entry list. -/
def jThumbList : List Json → Except Unit (List thumbEntry)
  | [] => Except.ok []
  | j :: rest =>
    match jThumbEntry j with
    | Except.ok t => (jThumbList rest).map (fun l => t :: l)
    | Except.error e => Except.error e

/-- field loop of the wrapping `thumbnail` object (tag `thumbnails`). -/
def jThumbWrapFields (cur : List thumbEntry) : List (Str × Json) → Except Unit (List thumbEntry)
  | [] => Except.ok cur
  | (k, v) :: rest =>
    if keyFold k "thumbnails".data then
      match v with
      | Json.jarr xs =>
        match jThumbList xs with
        | Except.ok l => jThumbWrapFields l rest
        | Except.error e => Except.error e
      | Json.jnull => jThumbWrapFields cur rest
      | _ => Except.error ()
    else jThumbWrapFields cur rest

/-- decode the wrapping `thumbnail` object. -/
def jThumbWrap (cur : List thumbEntry) : Json → Except Unit (List thumbEntry)
  | Json.jobj kvs => jThumbWrapFields cur kvs
  | Json.jnull => Except.ok cur
  | _ => Except.error ()

/-- VideoDetails mirrors the `videoDetails` sub-struct of `playerResponse`
(the float field `averageRating` is type-checked but carries no data). -/
structure VideoDetails where
  videoID : Str
  title : Str
  lengthSeconds : Str
  keywords : List Str
  viewCount : Str
  author : Str
  thumbnails : List thumbEntry
  deriving Repr, DecidableEq

/-- zero value of `VideoDetails`. -/
def VideoDetails.zero : VideoDetails := ⟨[], [], [], [], [], [], []⟩

/-- field loop of `videoDetails`; keys matched with the case-insensitive
fallback of `encoding/json` via `keyFold`. -/
def jVDFields (cur : VideoDetails) : List (Str × Json) → Except Unit VideoDetails
  | [] => Except.ok cur
  | (k, v) :: rest =>
    if keyFold k "videoId".data then
      match jStrField cur.videoID v with
      | Except.ok s => jVDFields { cur with videoID := s } rest
      | Except.error e => Except.error e
    else if keyFold k "title".data then
      match jStrField cur.title v with
      | Except.ok s => jVDFields { cur with title := s } rest
      | Except.error e => Except.error e
    else if keyFold k "lengthSeconds".data then
      match jStrField cur.lengthSeconds v with
      | Except.ok s => jVDFields { cur with lengthSeconds := s } rest
      | Except.error e => Except.error e
    else if keyFold k "keywords".data then
      match v with
      | Json.jarr xs =>
        match jStrList xs with
        | Except.ok l => jVDFields { cur with keywords := l } rest
        | Except.error e => Except.error e
      | Json.jnull => jVDFields cur rest
      | _ => Except.error ()
    else if keyFold k "viewCount".data then
      match jStrField cur.viewCount v with
      | Except.ok s => jVDFields { cur with viewCount := s } rest
      | Except.error e => Except.error e
    else if keyFold k "author".data then
      match jStrField cur.author v with
      | Except.ok s => jVDFields { cur with author := s } rest
      | Except.error e => Except.error e
    else if keyFold k "thumbnail".data then
      match jThumbWrap cur.thumbnails v with
      | Except.ok l => jVDFields { cur with thumbnails := l } rest
      | Except.error e => Except.error e
    else if keyFold k "averageRating".data then
      match jFloatField v with
      | Except.ok _ => jVDFields cur rest
      | Except.error e => Except.error e
    else jVDFields cur rest

/-- decode the `videoDetails` object. -/
def jVideoDetails (cur : VideoDetails) : Json → Except Unit VideoDetails
  | Json.jobj kvs => jVDFields cur kvs
  | Json.jnull => Except.ok cur
  | _ => Except.error ()

/-- field loop of one stream descriptor. -/
def jSFFields (cur : streamFormat) : List (Str × Json) → Except Unit streamFormat
  | [] => Except.ok cur
  | (k, v) :: rest =>
    if keyFold k "itag".data then
      match jIntField cur.Itag v with
      | Except.ok n => jSFFields { cur with Itag := n } rest
      | Except.error e => Except.error e
    else if keyFold k "url".data then
      match jStrField cur.URL v with
      | Except.ok s => jSFFields { cur with URL := s } rest
      | Except.error e => Except.error e
    else if keyFold k "signatureCipher".data then
      match jStrField cur.SignatureCipher v with
      | Except.ok s => jSFFields { cur with SignatureCipher := s } rest
      | Except.error e => Except.error e
    else if keyFold k "mimeType".data then
      match jStrField cur.MimeType v with
      | Except.ok s => jSFFields { cur with MimeType := s } rest
      | Except.error e => Except.error e
    else if keyFold k "quality".data then
      match jStrField cur.Quality v with
      | Except.ok s => jSFFields { cur with Quality := s } rest
      | Except.error e => Except.error e
    else if keyFold k "width".data then
      match jIntField cur.Width v with
      | Except.ok n => jSFFields { cur with Width := n } rest
      | Except.error e => Except.error e
    else if keyFold k "height".data then
      match jIntField cur.Height v with
      | Except.ok n => jSFFields { cur with Height := n } rest
      | Except.error e => Except.error e
    else if keyFold k "bitrate".data then
      match jIntField cur.Bitrate v with
      | Except.ok n => jSFFields { cur with Bitrate := n } rest
      | Except.error e => Except.error e
    else jSFFields cur rest

/-- decode one stream descriptor. -/
def jStreamFormat : Json → Except Unit streamFormat
  | Json.jobj kvs => jSFFields streamFormat.zero kvs
  | Json.jnull => Except.ok streamFormat.zero
  | _ => Except.error ()

/-- decode a descriptor array. -/
def jSFList : List Json → Except Unit (List streamFormat)
  | [] => Except.ok []
  | j :: rest =>
    match jStreamFormat j with
    | Except.ok f => (jSFList rest).map (fun l => f :: l)
    | Except.error e => Except.error e

/-- StreamingData mirrors the `streamingData` sub-struct. -/
structure StreamingData where
  Formats : List streamFormat
  AdaptiveFormats : List streamFormat
  deriving Repr, DecidableEq

/-- zero value of `StreamingData`. -/
def StreamingData.zero : StreamingData := ⟨[], []⟩

/-- field loop of `streamingData` (tags `formats`, `adaptiveFormats`). -/
def jSDFields (cur : StreamingData) : List (Str × Json) → Except Unit StreamingData
  | [] => Except.ok cur
  | (k, v) :: rest =>
    if keyFold k "formats".data then
      match v with
      | Json.jarr xs =>
        match jSFList xs with
        | Except.ok l => jSDFields { cur with Formats := l } rest
        | Except.error e => Except.error e
      | Json.jnull => jSDFields cur rest
      | _ => Except.error ()
    else if keyFold k "adaptiveFormats".data then
      match v with
      | Json.jarr xs =>
        match jSFList xs with
        | Except.ok l => jSDFields { cur with AdaptiveFormats := l } rest
        | Except.error e => Except.error e
      | Json.jnull => jSDFields cur rest
      | _ => Except.error ()
    else jSDFields cur rest

/-- decode the `streamingData` object. -/
def jStreamingData (cur : StreamingData) : Json → Except Unit StreamingData
  | Json.jobj kvs => jSDFields cur kvs
  | Json.jnull => Except.ok cur
  | _ => Except.error ()

/-- playerResponse mirrors the Go struct `playerResponse`. -/
structure playerResponse where
  videoDetails : VideoDetails
  streamingData : StreamingData
  deriving Repr, DecidableEq

/-- zero value of `playerResponse`. -/
def playerResponse.zero : playerResponse := ⟨VideoDetails.zero, StreamingData.zero⟩

/-- field loop of the top-level object. -/
def jPRFields (cur : playerResponse) : List (Str × Json) → Except Unit playerResponse
  | [] => Except.ok cur
  | (k, v) :: rest =>
    if keyFold k "videoDetails".data then
      match jVideoDetails cur.videoDetails v with
      | Except.ok d => jPRFields { cur with videoDetails := d } rest
      | Except.error e => Except.error e
    else if keyFold k "streamingData".data then
      match jStreamingData cur.streamingData v with
      | Except.ok d => jPRFields { cur with streamingData := d } rest
      | Except.error e => Except.error e
    else jPRFields cur rest

/-- decode the top-level player response value. -/
def jPlayerResponse : Json → Except Unit playerResponse
  | Json.jobj kvs => jPRFields playerResponse.zero kvs
  | Json.jnull => Except.ok playerResponse.zero
  | _ => Except.error ()

/-- model of `json.Unmarshal(captured, &pr)`: syntax-check then decode. -/
def decodePlayerResponse (s : Str) : Except Unit playerResponse :=
  match jsonParse s with
  | none => Except.error ()
  | some j => jPlayerResponse j

/-- literal part of the manifest marker regexp
`var ytInitialPlayerResponse = (\x7b.+?\x7d);` up to and including the brace. -/
def prLit : Str := "var ytInitialPlayerResponse = ".data ++ [obC]

/-- lazy part of the marker regexp: consume non-newline bytes until the
earliest position where `\x7d;` follows, returning the consumed text plus
that closing brace. -/
def lazyGo (acc : Str) : Str → Option Str
  | c :: d :: rest =>
    if c = cbC ∧ d = ';' then some (acc.reverse ++ [cbC])
    else if c = nlC then none
    else lazyGo (c :: acc) (d :: rest)
  | _ => none

/-- the `.+?` of the marker regexp needs at least one byte before the close
is considered. -/
def lazyStart : Str → Option Str
  | [] => none
  | c :: rest => if c = nlC then none else lazyGo [c] rest

/-- leftmost match of the manifest marker regexp, returning capture group 1
(the brace-delimited text). -/
def findPR : Str → Option Str
  | [] => none
  | s@(_ :: rest) =>
    match dropLit prLit s with
    | some r =>
      match lazyStart r with
      | some body => some (obC :: body)
      | none => findPR rest
    | none => findPR rest

/-- literal part of the player-URL regexp `"jsUrl":"(/s/player/[^"]+)"`. -/
def jsUrlLit : Str := [qC] ++ "jsUrl".data ++ [qC, ':', qC] ++ "/s/player/".data

/-- leftmost match of the player-URL regexp, returning capture group 1. -/
def findJsUrl : Str → Option Str
  | [] => none
  | s@(_ :: rest) =>
    match dropLit jsUrlLit s with
    | some r =>
      let pr := spanTW (fun c => c ≠ qC) r
      if pr.1 = [] then findJsUrl rest
      else
        match pr.2 with
        | c :: _ => if c = qC then some ("/s/player/".data ++ pr.1) else findJsUrl rest
        | [] => findJsUrl rest
    | none => findJsUrl rest

/-- model of `strings.ReplaceAll(s, "\\/", "/")`. -/
def replBSslash : Str → Str
  | [] => []
  | [c] => [c]
  | c :: d :: rest =>
    if c = bsC ∧ d = '/' then '/' :: replBSslash rest
    else c :: replBSslash (d :: rest)

/-- model of `extractPlayerURL`: locate the player script path in the page
and absolutize it. -/
def extractPlayerURL (htmlContent : Str) : Except String Str :=
  match findJsUrl htmlContent with
  | none => Except.error "could not find player URL in page"
  | some m => Except.ok ("https://www.youtube.com".data ++ replBSslash m)

/-- the three failure cases `parseMeta` itself can report. -/
inductive MetaErr where
  | manifestNotFound
  | manifestMalformed
  | noFormats
  deriving Repr, DecidableEq

/-- space-joined rendering used by `fmt.Sprint` on a string slice. -/
def joinSpace : List Str → Str
  | [] => []
  | [s] => s
  | s :: rest => s ++ ' ' :: joinSpace rest

/-- model of `fmt.Sprint(keywords)` for a `[]string` value. -/
def goSprintStrings (ks : List Str) : Str := '[' :: joinSpace ks ++ [']']

/-- clamping of `strconv.ParseInt` on range errors. -/
def clampInt64 (n : Int) : Int :=
  if n > maxInt64 then maxInt64 else if n < minInt64 then minInt64 else n

/-- model of `v, _ = strconv.Atoi(s)`: the parsed integer, zero when `Atoi`
reports a syntax error, and the clamped extreme on overflow (Atoi returns
the clamped value together with the discarded ErrRange). -/
def atoiOr0 (s : Str) : Int :=
  match s with
  | '-' :: ds => if ds ≠ [] ∧ ds.all Char.isDigit then clampInt64 (-(digitsToInt ds)) else 0
  | '+' :: ds => if ds ≠ [] ∧ ds.all Char.isDigit then clampInt64 (digitsToInt ds) else 0
  | ds => if ds ≠ [] ∧ ds.all Char.isDigit then clampInt64 (digitsToInt ds) else 0

/-- player code available to the `parseMeta` loop: empty when the page holds
no player URL (the fetch oracle returns empty on a failed download, as the
Go code ignores the `fetchPlayerCode` error). -/
def playerCodeOf (htmlContent : Str) (playerFetch : Str → Str) : Str :=
  match extractPlayerURL htmlContent with
  | Except.error _ => []
  | Except.ok u => playerFetch u

/-- model of `parseMeta`: extract the embedded manifest, decode it, fetch
the player code through the oracle `playerFetch` (empty on any failure, as
the Go code ignores both extraction and fetch errors), resolve every
descriptor, and fail with `noFormats` when nothing resolved. -/
def parseMetaModel (E : JSEngine) (video_id htmlContent : Str)
    (playerFetch : Str → Str) : Except MetaErr Video :=
  match findPR htmlContent with
  | none => Except.error MetaErr.manifestNotFound
  | some cap =>
    match decodePlayerResponse cap with
    | Except.error _ => Except.error MetaErr.manifestMalformed
    | Except.ok pr =>
      let thumbnailURL :=
        match pr.videoDetails.thumbnails with
        | [] => ([] : Str)
        | t :: _ => t.URL
      let playerCode := playerCodeOf htmlContent playerFetch
      let fmts := processFormats E playerCode
        (pr.streamingData.Formats ++ pr.streamingData.AdaptiveFormats) []
      if fmts = [] then Except.error MetaErr.noFormats
      else Except.ok {
        Id := video_id
        Title := pr.videoDetails.title
        Author := pr.videoDetails.author
        Keywords := goSprintStrings pr.videoDetails.keywords
        Thumbnail_url := thumbnailURL
        View_count := atoiOr0 pr.videoDetails.viewCount
        Length_seconds := atoiOr0 pr.videoDetails.lengthSeconds
        Formats := fmts
        Filename := [] }

/-- absence of ASCII control bytes, the relevant `url.Parse` validity check
for the inputs modelled here. -/
def ctlFree (s : Str) : Bool := s.all (fun c => 32 ≤ c.toNat ∧ c.toNat ≠ 127)

/-- model of the `url.Parse` raw-query extraction: text after the first `?`
of the pre-fragment part. -/
def urlRawQuery (input : Str) : Option Str :=
  if ¬ ctlFree input then none
  else
    let noFrag := (spanTW (fun c => c ≠ '#') input).1
    match (spanTW (fun c => c ≠ '?') noFrag).2 with
    | [] => some []
    | _ :: t => some t

/-- model of `extractId`: parse the input as a URL and demand a non-empty
`v` query parameter; `url.Values.Get` swallows `ParseQuery` errors. -/
def extractId (input : Str) : Except String Str :=
  match urlRawQuery input with
  | none => Except.error "invalid URL"
  | some rq =>
    let v := getParam (parsePairs rq).1 "v".data
    if v ≠ [] then Except.ok v else Except.error "no video ID"

/-- errors surfaced by `Get`: a fetch failure or a `parseMeta` failure;
there is no identifier-extraction case because the Go code discards it. -/
inductive GetErr where
  | fetchErr (msg : Str)
  | metaErr (e : MetaErr)
  deriving Repr, DecidableEq

/-- fetch-then-parse pipeline of `Get` for an already-normalized video id. -/
def getFrom (fetch : Str → Except Str Str) (E : JSEngine) (playerFetch : Str → Str)
    (vid : Str) : Except GetErr Video :=
  match fetch vid with
  | Except.error e => Except.error (GetErr.fetchErr e)
  | Except.ok query =>
    match parseMetaModel E vid query playerFetch with
    | Except.error e => Except.error (GetErr.metaErr e)
    | Except.ok v => Except.ok v

/-- marker tested by `Get` to decide whether the input is a watch-page URL. -/
def watchMarker : Str := "youtube.com/watch?".data

/-- model of `Get`: when the input looks like a watch URL the id is taken
from `extractId` with the error discarded (`video_id, _ = extractId(...)`,
yielding the empty id on failure), then the page is fetched and parsed. -/
def Get (fetch : Str → Except Str Str) (E : JSEngine) (playerFetch : Str → Str)
    (input : Str) : Except GetErr Video :=
  let vid :=
    if hasSub watchMarker input then
      match extractId input with
      | Except.ok v => v
      | Except.error _ => []
    else input
  getFrom fetch E playerFetch vid

/-- engine whose every execution throws, modelling a broken sandbox. -/
def engineFail : JSEngine := ⟨fun _ _ => Except.error ()⟩

/-- player-code fetch oracle that always fails (returns empty code). -/
def noFetch : Str → Str := fun _ => []

/-- page fetch oracle that always fails. -/
def fetchNone : Str → Except Str Str := fun _ => Except.error "nf".data

/-- example player blob defining a reversing descrambler `DC`. -/
def pcDC : Str :=
  "DC=function(a)\x7ba=a.split(\x22\x22);return a.reverse().join(\x22\x22)\x7d;".data

/-- function fragment `extractFullDecryptFunction` extracts from `pcDC`. -/
def fcDC : Str :=
  "var DC=function(a)\x7ba=a.split(\x22\x22);return a.reverse().join(\x22\x22)\x7d;".data

/-- engine behaving as a sandbox where `DC("AABB")` evaluates to the string
`BBAA` and every fragment loads fine. -/
def engineBBAA : JSEngine :=
  ⟨fun _ src =>
    if src = callStrOf "DC".data "AABB".data then Except.ok (JSValue.str "BBAA".data)
    else Except.ok JSValue.undef⟩

/-- engine where the invocation returns the number 42 instead of a string. -/
def engineNum : JSEngine :=
  ⟨fun _ src =>
    if src = callStrOf "DC".data "AABB".data then Except.ok (JSValue.num 42)
    else Except.ok JSValue.undef⟩

/-- the signature cipher of the spec's worked example. -/
def cipherEx : Str := "url=http%3A%2F%2Fx.test%2Fv&s=AABB&sp=sig".data

/-- parsed pairs of `cipherEx`. -/
def pairsEx : List (Str × Str) := (parsePairs cipherEx).1

/-- descriptor with a cipher whose descrambling will fail. -/
def sfCipherFail : streamFormat :=
  { streamFormat.zero with Itag := 18, SignatureCipher := "url=http%3A%2F%2Fa&s=X".data }

/-- parsed pairs of the failing descriptor's cipher. -/
def pairsFail : List (Str × Str) := (parsePairs sfCipherFail.SignatureCipher).1

/-- player blob whose descrambler is bound to the one-character name `q`. -/
def pcQ : Str := "q=function(a)\x7ba=a.split(\x22\x22);AB.x(a)\x7d".data

/-- helper object whose sole member value is the string literal `"\x7d"`. -/
def pcHelperCex : Str := "var AB=\x7ba:\x22\x7d\x22\x7d;".data

/-- truncated text the naive helper pattern extracts from `pcHelperCex`. -/
def wrongHelperEx : Str := "var AB=\x7ba:\x22\x7d;".data

/-- function body containing a string literal with an unbalanced brace. -/
def pcXY : Str := "XY=function(a)\x7breturn \x22\x7d\x22\x7d".data

/-- fragment extracted from `pcXY`. -/
def outXY : Str := "var XY=function(a)\x7breturn \x22\x7d\x22\x7d;".data

/-- page whose manifest is valid JSON that does not fit `playerResponse`. -/
def html8 : Str := "var ytInitialPlayerResponse = \x7b\x22videoDetails\x22:[]\x7d;".data

/-- capture the marker regexp takes from `html8`. -/
def cap8 : Str := "\x7b\x22videoDetails\x22:[]\x7d".data

/-- page with a well-formed manifest holding no stream descriptor at all. -/
def htmlNoFmt : Str :=
  "var ytInitialPlayerResponse = \x7b\x22videoDetails\x22:\x7b\x22title\x22:\x22T\x22\x7d\x7d;".data

/-- page without any manifest marker. -/
def htmlPlain : Str := "hello page".data

/-- progressive descriptor with a direct URL. -/
def sfA : streamFormat := { streamFormat.zero with Itag := 1, URL := "http://a/1".data }

/-- adaptive descriptor with a direct URL and an explicit quality. -/
def sfB : streamFormat :=
  { streamFormat.zero with Itag := 2, URL := "http://b/2".data, Quality := "hd".data }

/-- sample resolved format with itag 1. -/
def fmt1 : Format := { Itag := 1, Video_type := [], Quality := [], Url := "u1".data }

/-- sample resolved format with itag 2. -/
def fmt2 : Format := { Itag := 2, Video_type := [], Quality := [], Url := "u2".data }

/-- sample video with two formats, for the lookup example. -/
def vEx : Video :=
  { Id := [], Title := [], Author := [], Keywords := [], Thumbnail_url := [],
    View_count := 0, Length_seconds := 0, Formats := [fmt1, fmt2], Filename := [] }

/-- watch URL whose query has no `v` parameter. -/
def input10 : Str := "https://www.youtube.com/watch?x=1".data

/-- capture the marker regexp takes from `htmlNoFmt`. -/
def capNoFmt : Str := "\x7b\x22videoDetails\x22:\x7b\x22title\x22:\x22T\x22\x7d\x7d".data

/-- decoded player response of `htmlNoFmt`: a title and no descriptors. -/
def prNoFmt : playerResponse :=
  { playerResponse.zero with
    videoDetails := { VideoDetails.zero with title := "T".data } }

/-- a successful literal consumption decomposes the input. -/
theorem dropLit_eq : ∀ (p s r : Str), dropLit p s = some r → s = p ++ r := by
  intro p
  induction p with
  | nil =>
    intro s r h
    simp only [dropLit, Option.some.injEq] at h
    simp [h]
  | cons c cs ih =>
    intro s r h
    cases s with
    | nil => simp [dropLit] at h
    | cons d ds =>
      simp only [dropLit] at h
      split at h
      · next hd =>
        subst hd
        simp [ih ds r h]
      · exact absurd h (by simp)

/-- the two spanTW components reassemble the input. -/
theorem spanTW_append (p : Char → Bool) (s : Str) : (spanTW p s).1 ++ (spanTW p s).2 = s :=
  List.takeWhile_append_dropWhile p s

/-- every byte of the first spanTW component satisfies the predicate. -/
theorem spanTW_all (p : Char → Bool) (s : Str) : (spanTW p s).1.all p = true := by
  rw [List.all_eq_true]
  intro x hx
  exact List.mem_takeWhile_imp hx

/-- the descriptor loop equals the accumulated list extended by a filterMap
over the descriptors. -/
theorem processFormats_filterMap (E : JSEngine) (pc : Str) :
    ∀ (l : List streamFormat) (acc : List Format),
      processFormats E pc l acc = acc ++ l.filterMap (resolveOne E pc) := by
  intro l
  induction l with
  | nil => intro acc; simp [processFormats]
  | cons f fs ih =>
    intro acc
    simp only [processFormats, List.filterMap_cons]
    cases h : resolveOne E pc f with
    | none => simp [ih]
    | some fmt => simp [ih]

/-- a descriptor with a non-empty resolved URL is kept as `fmtOf`. -/
theorem resolveOne_of_ne (E : JSEngine) (pc : Str) (f : streamFormat)
    (h : resolvedURL E pc f ≠ []) : resolveOne E pc f = some (fmtOf E pc f) := by
  unfold resolveOne fmtOf
  simp [h]

/-- when every descriptor resolves, the filterMap is a plain map. -/
theorem filterMap_resolve_eq_map (E : JSEngine) (pc : Str) :
    ∀ (l : List streamFormat), (∀ f ∈ l, resolvedURL E pc f ≠ []) →
      l.filterMap (resolveOne E pc) = l.map (fmtOf E pc) := by
  intro l
  induction l with
  | nil => intro _; simp
  | cons f fs ih =>
    intro h
    rw [List.filterMap_cons, resolveOne_of_ne E pc f (h f (by simp))]
    simp [ih (fun g hg => h g (by simp [hg]))]

/-- a tag matching no format makes the search return `(0, none)` from any
starting index. -/
theorem indexFrom_none (t : Int) : ∀ (l : List Format) (i : Nat),
    (∀ f ∈ l, f.Itag ≠ t) → indexFrom t i l = (0, none) := by
  intro l
  induction l with
  | nil => intro i _; rfl
  | cons f fs ih =>
    intro i h
    simp only [indexFrom, h f (by simp), if_false]
    exact ih (i + 1) (fun g hg => h g (by simp [hg]))

/-- the search finds the first matching format at the offset index. -/
theorem indexFrom_first (t : Int) : ∀ (pre : List Format) (f : Format) (post : List Format)
    (i : Nat), (∀ g ∈ pre, g.Itag ≠ t) → f.Itag = t →
    indexFrom t i (pre ++ f :: post) = (i + pre.length, some f) := by
  intro pre
  induction pre with
  | nil => intro f post i _ hf; simp [indexFrom, hf]
  | cons g gs ih =>
    intro f post i h hf
    simp only [List.cons_append, indexFrom, h g (by simp), if_false, List.append_eq]
    rw [ih f post (i + 1) (fun x hx => h x (by simp [hx])) hf]
    simp [Prod.ext_iff]
    omega

/-- a successful structural scan consumes a prefix of the input and the scan
state folded over that prefix ends at depth zero outside any string. -/
theorem braceScanF_spec : ∀ (s : Str) (st : ScanSt) (acc out : Str),
    braceScanF st acc s = some out →
    ∃ t rest2, s = t ++ rest2 ∧ out = acc.reverse ++ t ∧
      (t.foldl stepF st).depth = 0 ∧ (t.foldl stepF st).inStr = false := by
  intro s
  induction s with
  | nil => intro st acc out h; simp [braceScanF] at h
  | cons c cs ih =>
    intro st acc out h
    simp only [braceScanF] at h
    split at h
    · next hcond =>
      obtain ⟨he, hi, hc, hd⟩ := hcond
      have hesc : st.esc = false := by simpa using he
      have hins : st.inStr = false := by simpa using hi
      have hout : out = acc.reverse ++ [c] := by
        simpa using h.symm
      subst hc
      refine ⟨[cbC], cs, rfl, hout, ?_, ?_⟩
      · have h1 : ¬cbC = bsC := by decide
        have h2 : ¬(cbC = qC ∨ cbC = apC) := by decide
        have h3 : ¬cbC = obC := by decide
        simp [List.foldl, stepF, hesc, hins, h1, h2, h3, hd]
      · have h1 : ¬cbC = bsC := by decide
        have h2 : ¬(cbC = qC ∨ cbC = apC) := by decide
        have h3 : ¬cbC = obC := by decide
        simp [List.foldl, stepF, hesc, hins, h1, h2, h3]
    · obtain ⟨t, r2, hs, hout, hdep, hins2⟩ := ih (stepF st c) (c :: acc) out h
      refine ⟨c :: t, r2, by simp [hs], ?_, ?_, ?_⟩
      · rw [hout]; simp
      · simpa [List.foldl] using hdep
      · simpa [List.foldl] using hins2

/-- a successful header match decomposes the input as header plus rest. -/
theorem funcHeaderAt_spec (fn s hdr rest : Str)
    (h : funcHeaderAt fn s = some (hdr, rest)) : s = hdr ++ rest := by
  unfold funcHeaderAt at h
  split at h
  · exact absurd h (by simp)
  · rename_i r h1
    split at h
    · exact absurd h (by simp)
    · split at h
      · exact absurd h (by simp)
      · rename_i r2 h2
        split at h
        · exact absurd h (by simp)
        · split at h
          · simp only [Option.some.injEq, Prod.mk.injEq] at h
            obtain ⟨hh, hr⟩ := h
            have e1 := dropLit_eq _ _ _ h1
            have e2 := dropLit_eq _ _ _ h2
            have e3 := spanTW_append (fun c => c.isAlphanum) r
            rw [← hh, ← hr, e1]
            conv_lhs => rw [← e3]
            rw [e2]
            simp
          · exact absurd h (by simp)

/-- a successful anchor search decomposes the blob as skipped prefix,
matched header, and rest. -/
theorem findDefStart_spec (fn : Str) : ∀ (s accRev pre hdr rest : Str),
    findDefStart fn accRev s = some (pre, hdr, rest) →
    accRev.reverse ++ s = pre ++ hdr ++ rest := by
  intro s
  induction s with
  | nil => intro accRev pre hdr rest h; simp [findDefStart] at h
  | cons c cs ih =>
    intro accRev pre hdr rest h
    simp only [findDefStart] at h
    cases hf : funcHeaderAt fn (c :: cs) with
    | some pr =>
      obtain ⟨p1, p2⟩ := pr
      rw [hf] at h
      simp only [Option.some.injEq, Prod.mk.injEq] at h
      obtain ⟨h1, h2, h3⟩ := h
      have hfa := funcHeaderAt_spec fn (c :: cs) p1 p2 hf
      rw [← h1, ← h2, ← h3, hfa]
      simp [List.append_assoc]
    | none =>
      rw [hf] at h
      have := ih (c :: accRev) pre hdr rest h
      simpa [List.append_assoc] using this

/-- C9: IndexByItag returns the index and pointer of the first format whose
Itag equals the requested tag; with no match it returns index 0 together
with a nil pointer, so the index alone cannot distinguish a miss from a
match on the first format and callers must test the pointer. -/
theorem C9_indexByItag (v : Video) (t : Int) :
    ((∀ f ∈ v.Formats, f.Itag ≠ t) → IndexByItag v t = (0, none)) ∧
    (∀ pre f post, v.Formats = pre ++ f :: post → (∀ g ∈ pre, g.Itag ≠ t) → f.Itag = t →
      IndexByItag v t = (pre.length, some f)) := by
  constructor
  · intro h
    exact indexFrom_none t v.Formats 0 h
  · intro pre f post hsplit hpre hf
    unfold IndexByItag
    rw [hsplit, indexFrom_first t pre f post 0 hpre hf]
    simp

/-- C9 witness: a missing tag gives `(0, nil)` while tag 1 sitting at index 0
gives `(0, some _)` — the same index — and tag 2 is found at index 1. -/
theorem C9_indexByItag_witness :
    IndexByItag vEx 5 = (0, none) ∧ IndexByItag vEx 1 = (0, some fmt1) ∧
    IndexByItag vEx 2 = (1, some fmt2) := by
  refine ⟨(C9_indexByItag vEx 5).1 (by decide), ?_, ?_⟩
  · exact (C9_indexByItag vEx 1).2 [] fmt1 [fmt2] rfl (by simp) (by decide)
  · exact (C9_indexByItag vEx 2).2 [fmt1] fmt2 [] rfl (by decide) (by decide)

/-- C10: an input containing the watch marker whose extraction fails makes
`Get` continue with the empty video identifier — fetching the page for the
empty id — instead of surfacing the extraction error. -/
theorem C10_get_empty_id (fetch : Str → Except Str Str) (E : JSEngine)
    (pf : Str → Str) (input : Str) (msg : String)
    (hW : hasSub watchMarker input = true)
    (hE : extractId input = Except.error msg) :
    Get fetch E pf input = getFrom fetch E pf [] := by
  unfold Get
  rw [hW, hE]
  simp

/-- C10 witness: the v-less watch URL ends in a fetch on the empty id. -/
theorem C10_get_empty_id_witness :
    Get fetchNone engineFail noFetch input10 = Except.error (GetErr.fetchErr "nf".data) :=
  Eq.trans
    (C10_get_empty_id fetchNone engineFail noFetch input10 "no video ID" (by decide) (by decide))
    (by decide)

/-- C2: a successful resolution always carries at least one format, and when
no descriptor resolves `parseMeta` returns the no-usable-formats error, so
an empty-list success is impossible. -/
theorem C2_nonempty_formats (E : JSEngine) (vid html : Str) (pf : Str → Str) :
    (∀ v, parseMetaModel E vid html pf = Except.ok v → v.Formats ≠ []) ∧
    (∀ cap pr, findPR html = some cap → decodePlayerResponse cap = Except.ok pr →
      processFormats E (playerCodeOf html pf)
        (pr.streamingData.Formats ++ pr.streamingData.AdaptiveFormats) [] = [] →
      parseMetaModel E vid html pf = Except.error MetaErr.noFormats) := by
  constructor
  · intro v hok
    simp only [parseMetaModel] at hok
    split at hok
    · exact absurd hok (by simp)
    · split at hok
      · exact absurd hok (by simp)
      · split at hok
        · exact absurd hok (by simp)
        · next hne =>
          simp only [Except.ok.injEq] at hok
          rw [← hok]
          exact hne
  · intro cap pr hcap hdec hempty
    simp only [parseMetaModel, hcap, hdec, hempty]
    simp

/-- C2 witness: a manifest without descriptors yields the noFormats error. -/
theorem C2_nonempty_formats_witness :
    parseMetaModel engineFail "v".data htmlNoFmt noFetch = Except.error MetaErr.noFormats :=
  (C2_nonempty_formats engineFail "v".data htmlNoFmt noFetch).2 capNoFmt prNoFmt
    (by decide) (by decide) (by decide)

/-- C3: when every progressive and adaptive descriptor resolves, the loop
returns exactly N+M formats, all progressive ones first, each group in
original order; in general the loop is an order-preserving filterMap of the
concatenated descriptor list, so dropped descriptors do not disturb the
order of the rest. -/
theorem C3_format_order (E : JSEngine) (pc : Str) (P A : List streamFormat)
    (h : ∀ f ∈ P ++ A, resolvedURL E pc f ≠ []) :
    processFormats E pc (P ++ A) [] = P.map (fmtOf E pc) ++ A.map (fmtOf E pc) ∧
    (processFormats E pc (P ++ A) []).length = P.length + A.length ∧
    (∀ (l : List streamFormat) (acc : List Format),
      processFormats E pc l acc = acc ++ l.filterMap (resolveOne E pc)) := by
  have hmain : processFormats E pc (P ++ A) [] = P.map (fmtOf E pc) ++ A.map (fmtOf E pc) := by
    rw [processFormats_filterMap, List.nil_append, filterMap_resolve_eq_map E pc _ h,
      List.map_append]
  refine ⟨hmain, ?_, processFormats_filterMap E pc⟩
  rw [hmain]
  simp

/-- C3 witness: one progressive and one adaptive descriptor, both direct,
give exactly the two formats in order. -/
theorem C3_format_order_witness :
    processFormats engineFail [] ([sfA] ++ [sfB]) [] =
      [fmtOf engineFail [] sfA] ++ [fmtOf engineFail [] sfB] ∧
    (processFormats engineFail [] ([sfA] ++ [sfB]) []).length = 1 + 1 := by
  have h := C3_format_order engineFail [] [sfA] [sfB] (by decide)
  exact ⟨h.1, h.2.1⟩

/-- C1: a descriptor with no direct URL but a cipher carrying a base URL is
kept with that undecrypted base URL whenever the descrambling chain fails:
`resolveOne` emits the Format and the loop keeps it rather than dropping the
stream or failing. -/
theorem C1_cipher_fallback (E : JSEngine) (pc : Str) (f : streamFormat)
    (fs : List streamFormat) (pairs : List (Str × Str)) (msg : String)
    (hURL : f.URL = [])
    (hC : f.SignatureCipher ≠ [])
    (hP : parsePairs f.SignatureCipher = (pairs, false))
    (hB : getParam pairs "url".data ≠ [])
    (hFail : decryptSignature E (getParam pairs "s".data) pc = Except.error msg) :
    resolveOne E pc f =
      some { Itag := f.Itag, Video_type := f.MimeType, Quality := qualityLabel f,
             Url := getParam pairs "url".data } ∧
    (f ∈ fs →
      { Itag := f.Itag, Video_type := f.MimeType, Quality := qualityLabel f,
        Url := getParam pairs "url".data } ∈ processFormats E pc fs []) := by
  have hres : resolvedURL E pc f = getParam pairs "url".data := by
    unfold resolvedURL
    rw [if_neg (by simp [hURL]), if_neg hC, hP]
    simp only []
    by_cases hpc : pc = []
    · simp [hpc]
    · rw [if_neg hpc]
      by_cases hsig : getParam pairs "s".data = []
      · simp [hsig]
      · rw [if_neg hsig]
        have hdec : decipherURL E f.SignatureCipher pc = Except.error msg := by
          unfold decipherURL
          rw [hP]
          simp only []
          rw [if_neg hB, if_neg hsig, hFail]
        rw [hdec]
  have hone : resolveOne E pc f =
      some { Itag := f.Itag, Video_type := f.MimeType, Quality := qualityLabel f,
             Url := getParam pairs "url".data } := by
    unfold resolveOne
    rw [hres, if_neg hB]
  refine ⟨hone, fun hmem => ?_⟩
  rw [processFormats_filterMap, List.nil_append]
  exact List.mem_filterMap.mpr ⟨f, hmem, hone⟩

/-- C1 witness: a ciphered descriptor whose player code is missing entirely
(every descrambling stage fails) still resolves to its base URL. -/
theorem C1_cipher_fallback_witness :
    resolveOne engineFail [] sfCipherFail =
      some { Itag := sfCipherFail.Itag, Video_type := sfCipherFail.MimeType,
             Quality := qualityLabel sfCipherFail, Url := getParam pairsFail "url".data } ∧
    { Itag := sfCipherFail.Itag, Video_type := sfCipherFail.MimeType,
      Quality := qualityLabel sfCipherFail, Url := getParam pairsFail "url".data } ∈
        processFormats engineFail [] [sfCipherFail] [] := by
  have h := C1_cipher_fallback engineFail [] sfCipherFail [sfCipherFail] pairsFail
    "could not find decryption function" (by decide) (by decide) (by decide) (by decide)
    (by decide)
  exact ⟨h.1, h.2 (by simp)⟩

/-- C5: for a cipher with a base URL, `decipherURL` returns the base URL
unchanged when no `s` parameter exists, and otherwise appends the decrypted
signature query-escaped under the `sp` name (default `signature`), joined
with `&` when the base URL already has a query and `?` otherwise. -/
theorem C5_decipher (E : JSEngine) (cipher pc : Str) (pairs : List (Str × Str))
    (hP : parsePairs cipher = (pairs, false))
    (hB : getParam pairs "url".data ≠ []) :
    (getParam pairs "s".data = [] →
      decipherURL E cipher pc = Except.ok (getParam pairs "url".data)) ∧
    (∀ dec, getParam pairs "s".data ≠ [] →
      decryptSignature E (getParam pairs "s".data) pc = Except.ok dec →
      decipherURL E cipher pc = Except.ok (getParam pairs "url".data ++
        [if hasCh '?' (getParam pairs "url".data) then '&' else '?'] ++
        (if getParam pairs "sp".data = [] then "signature".data else getParam pairs "sp".data) ++
        ['='] ++ queryEscape dec)) := by
  constructor
  · intro hsig
    unfold decipherURL
    rw [hP]
    simp only []
    rw [if_neg hB, if_pos hsig]
  · intro dec hsig hok
    unfold decipherURL
    rw [hP]
    simp only []
    rw [if_neg hB, if_neg hsig, hok]
    by_cases hq : hasCh '?' (getParam pairs "url".data) = true <;> simp [hq]

/-- C5 witness: the spec's worked example resolves to the expected URL. -/
theorem C5_decipher_witness :
    decipherURL engineBBAA cipherEx pcDC = Except.ok "http://x.test/v?sig=BBAA".data := by
  have h := (C5_decipher engineBBAA cipherEx pcDC pairsEx (by decide) (by decide)).2
    "BBAA".data (by decide) (by decide)
  exact Eq.trans h (by decide)

/-- C4 (amended): for the descrambling function the extractor anchors on the
definition header, runs the structural brace scan (depth counter, in-string
flag, escape awareness), and returns `var` plus a fragment of the blob whose
scanned body brace-balances to zero — so a body holding a string literal
with an unbalanced brace is bounded correctly; it fails when no anchor
matches or the scan exhausts the input.  (For the helper object the naive
regexp patterns run first and can return unbalanced boundaries, see the
counterexample.) -/
theorem C4_structural_scan (pc fn out : Str) :
    (extractFullDecryptFunction pc fn = Except.ok out →
      ∃ pre hdr body rest2, out = "var ".data ++ hdr ++ body ++ [';'] ∧
        balancesToZero body = true ∧ pc = pre ++ hdr ++ body ++ rest2) ∧
    (findDefStart fn [] pc = none →
      extractFullDecryptFunction pc fn = Except.error "could not find function definition") ∧
    (∀ pre hdr rest, findDefStart fn [] pc = some (pre, hdr, rest) →
      braceScanF st0 [] rest = none →
      extractFullDecryptFunction pc fn =
        Except.error "could not find complete function definition") := by
  refine ⟨?_, ?_, ?_⟩
  · intro h
    cases hfind : findDefStart fn [] pc with
    | none =>
      unfold extractFullDecryptFunction at h
      simp only [hfind] at h
      exact absurd h (by simp)
    | some trip =>
      obtain ⟨pre, hdr, rest⟩ := trip
      unfold extractFullDecryptFunction at h
      simp only [hfind] at h
      cases hscan : braceScanF st0 [] rest with
      | none =>
        simp only [hscan] at h
        exact absurd h (by simp)
      | some body =>
        simp only [hscan, Except.ok.injEq] at h
        obtain ⟨t, rest2, hrest, hbody, hdep, hinstr⟩ := braceScanF_spec rest st0 [] body hscan
        have hb : body = t := by simpa using hbody
        refine ⟨pre, hdr, body, rest2, h.symm, ?_, ?_⟩
        · unfold balancesToZero
          rw [hb]
          simp [hdep, hinstr]
        · have hd := findDefStart_spec fn pc [] pre hdr rest hfind
          simp only [List.reverse_nil, List.nil_append] at hd
          rw [hd, hrest, hb]
          simp [List.append_assoc]
  · intro hnone
    unfold extractFullDecryptFunction
    simp only [hnone]
  · intro pre hdr rest hfind hscan
    unfold extractFullDecryptFunction
    simp only [hfind, hscan]

/-- C4 witness: the body with an embedded `"\x7d"` string literal is
extracted with balanced boundaries by the structural scan. -/
theorem C4_structural_scan_witness :
    ∃ pre hdr body rest2, outXY = "var ".data ++ hdr ++ body ++ [';'] ∧
      balancesToZero body = true ∧ pcXY = pre ++ hdr ++ body ++ rest2 :=
  (C4_structural_scan pcXY "XY".data outXY).1 (by decide)

/-- C4 (counterexample): helper-object extraction runs the naive regexp
patterns before any structural scan, so a helper whose member string holds
the unbalanced brace character is extracted with wrong, unbalanced
boundaries, while the structural scan of the same definition (from the brace
at offset 7) yields the correct balanced fragment. -/
theorem C4_helper_cex :
    extractHelperObject pcHelperCex "AB".data = Except.ok wrongHelperEx ∧
    balancesToZero wrongHelperEx = false ∧
    braceScanH st0 [] (List.drop 7 pcHelperCex) = some "\x7ba:\x22\x7d\x22\x7d".data ∧
    balancesToZero "\x7ba:\x22\x7d\x22\x7d".data = true := by decide

/-- C6 (amended): sandbox execution starts from a fresh context per
invocation, loads the helper fragment first when present, then the function
fragment, then invokes the function with the signature quoted as a string
literal; a fragment that fails to execute yields the distinct load errors
and a throwing call yields the invocation error, but a call returning a
non-string value is not an error: the value is converted to a string and
returned as success. -/
theorem C6_sandbox (E : JSEngine) (signature pc fn hn fc : Str)
    (hLoc : extractDecryptFunction pc = Except.ok (fn, hn))
    (hFun : extractFullDecryptFunction pc fn = Except.ok fc) :
    (helperCodeOf pc hn ≠ [] → E.exec [] (helperCodeOf pc hn) = Except.error () →
      decryptSignature E signature pc = Except.error "failed to execute helper code") ∧
    (∀ hist1 : List Str,
      (helperCodeOf pc hn = [] ∧ hist1 = [] ∨
        helperCodeOf pc hn ≠ [] ∧ (∃ w, E.exec [] (helperCodeOf pc hn) = Except.ok w) ∧
          hist1 = [helperCodeOf pc hn]) →
      ((E.exec hist1 fc = Except.error () →
          decryptSignature E signature pc = Except.error "failed to execute function code") ∧
       (∀ w, E.exec hist1 fc = Except.ok w →
         ((E.exec (hist1 ++ [fc]) (callStrOf fn signature) = Except.error () →
             decryptSignature E signature pc = Except.error "failed to decrypt signature") ∧
          (∀ v, E.exec (hist1 ++ [fc]) (callStrOf fn signature) = Except.ok v →
             decryptSignature E signature pc = Except.ok (jsToString v)))))) := by
  constructor
  · intro hne hfail
    unfold decryptSignature
    simp only [hLoc, hFun, if_neg hne, hfail]
  · intro hist1 hinit
    have hstep : (if helperCodeOf pc hn = [] then Except.ok ([] : List Str)
        else match E.exec [] (helperCodeOf pc hn) with
          | Except.error _ => Except.error "failed to execute helper code"
          | Except.ok _ => Except.ok [helperCodeOf pc hn]) = Except.ok hist1 := by
      rcases hinit with ⟨hempty, h1⟩ | ⟨hne, ⟨w, hw⟩, h1⟩
      · rw [if_pos hempty, h1]
      · rw [if_neg hne, hw, h1]
    constructor
    · intro hfc
      unfold decryptSignature
      simp only [hLoc, hFun, hstep, hfc]
    · intro w hw
      constructor
      · intro hcall
        unfold decryptSignature
        simp only [hLoc, hFun, hstep, hw, hcall]
      · intro v hv
        unfold decryptSignature
        simp only [hLoc, hFun, hstep, hw, hv]

/-- C6 witness: a working sandbox run through helper-less loading and a
string-returning call produces the decrypted signature. -/
theorem C6_sandbox_witness :
    decryptSignature engineBBAA "AABB".data pcDC = Except.ok "BBAA".data := by
  have h := ((C6_sandbox engineBBAA "AABB".data pcDC "DC".data [] fcDC (by decide)
    (by decide)).2 [] (Or.inl ⟨by decide, rfl⟩)).2 JSValue.undef (by decide)
  exact h.2 (JSValue.str "BBAA".data) (by decide)

/-- C6 (counterexample): a call returning the non-string value 42 does not
produce an invocation error — `decryptSignature` succeeds with the string
conversion `"42"`. -/
theorem C6_nonstring_cex :
    engineNum.exec [fcDC] (callStrOf "DC".data "AABB".data) = Except.ok (JSValue.num 42) ∧
    decryptSignature engineNum "AABB".data pcDC = Except.ok "42".data := by decide

/-- a match of pattern 1 captures a nonempty identifier-class run. -/
theorem p1At_name (prevW : Bool) (s n : Str) (h : p1At prevW s = some n) :
    n ≠ [] ∧ n.all isIdentChar = true := by
  cases s with
  | nil => simp [p1At] at h
  | cons c cs =>
    by_cases hb : prevW = isWordChar c
    · simp [p1At, hb] at h
    · by_cases hlen : (spanTW isIdentChar (c :: cs)).1.length < 2
      · simp [p1At, hb, hlen] at h
      · by_cases ht : (p1TailRest (spanTW isIdentChar (c :: cs)).2).isSome = true
        · have hn : (spanTW isIdentChar (c :: cs)).1 = n := by
            simpa [p1At, hb, hlen, ht] using h
          rw [← hn]
          refine ⟨fun hnil => hlen (by simp [hnil]), spanTW_all isIdentChar (c :: cs)⟩
        · simp [p1At, hb, hlen, ht] at h

/-- a match of pattern 2 captures a nonempty identifier-class run. -/
theorem p2At_name (prevW : Bool) (s n : Str) (h : p2At prevW s = some n) :
    n ≠ [] ∧ n.all isIdentChar = true := by
  cases s with
  | nil => simp [p2At] at h
  | cons c cs =>
    by_cases hb : prevW = isWordChar c
    · simp [p2At, hb] at h
    · by_cases hlen : (spanTW isIdentChar (c :: cs)).1.length < 2
      · simp [p2At, hb, hlen] at h
      · cases ht : p1TailRest (spanTW isIdentChar (c :: cs)).2 with
        | none => simp [p2At, hb, hlen, ht] at h
        | some r =>
          by_cases hd : (dropLit [';'] r).isSome = true
          · have hn : (spanTW isIdentChar (c :: cs)).1 = n := by
              simpa [p2At, hb, hlen, ht, hd] using h
            rw [← hn]
            refine ⟨fun hnil => hlen (by simp [hnil]), spanTW_all isIdentChar (c :: cs)⟩
          · simp [p2At, hb, hlen, ht, hd] at h

/-- a match of pattern 3 captures a nonempty identifier-class run. -/
theorem p3At_name (s n h2 : Str) (h : p3At s = some (n, h2)) :
    n ≠ [] ∧ n.all isIdentChar = true := by
  unfold p3At at h
  by_cases hne : (spanTW isIdentChar s).1 = []
  · rw [if_pos hne] at h
    exact absurd h (by simp)
  · rw [if_neg hne] at h
    cases hd : dropLit ("=function(a)".data ++ [obC] ++ "a=a.split(".data ++ [qC, qC] ++ ");".data)
        (spanTW isIdentChar s).2 with
    | none => rw [hd] at h; simp at h
    | some r =>
      rw [hd] at h
      simp only [] at h
      by_cases hne2 : (spanTW isIdentChar r).1 = []
      · rw [if_pos hne2] at h
        exact absurd h (by simp)
      · rw [if_neg hne2] at h
        by_cases hdot : (dropLit ['.'] (spanTW isIdentChar r).2).isSome = true
        · rw [if_pos hdot] at h
          simp only [Option.some.injEq, Prod.mk.injEq] at h
          obtain ⟨h1, _⟩ := h
          rw [← h1]
          exact ⟨hne, spanTW_all isIdentChar s⟩
        · rw [if_neg hdot] at h
          exact absurd h (by simp)

/-- a match of pattern 4 captures a nonempty identifier-class run. -/
theorem p4At_name (prevW : Bool) (s n h2 : Str) (h : p4At prevW s = some (n, h2)) :
    n ≠ [] ∧ n.all isIdentChar = true := by
  cases s with
  | nil => simp [p4At] at h
  | cons c cs =>
    simp only [p4At] at h
    by_cases hb : prevW = isWordChar c
    · rw [if_pos hb] at h
      exact absurd h (by simp)
    · rw [if_neg hb] at h
      by_cases hne : (spanTW isIdentChar (c :: cs)).1 = []
      · rw [if_pos hne] at h
        exact absurd h (by simp)
      · rw [if_neg hne] at h
        cases hd1 : dropLit ['='] ((spanTW isIdentChar (c :: cs)).2.dropWhile isSpaceRE) with
        | none => rw [hd1] at h; simp at h
        | some r1 =>
          rw [hd1] at h
          simp only [] at h
          cases hd2 : dropLit "function(".data (r1.dropWhile isSpaceRE) with
          | none => rw [hd2] at h; simp at h
          | some r2 =>
            rw [hd2] at h
            simp only [] at h
            cases r2 with
            | nil => simp at h
            | cons pc r3 =>
              simp only [] at h
              by_cases ha1 : (!pc.isAlpha) = true
              · rw [if_pos ha1] at h
                exact absurd h (by simp)
              · rw [if_neg ha1] at h
                cases hd3 : dropLit (')' :: [obC]) r3 with
                | none => rw [hd3] at h; simp at h
                | some r4 =>
                  rw [hd3] at h
                  simp only [] at h
                  cases r4 with
                  | nil => simp at h
                  | cons vc r5 =>
                    simp only [] at h
                    by_cases ha2 : (!vc.isAlpha) = true
                    · rw [if_pos ha2] at h
                      exact absurd h (by simp)
                    · rw [if_neg ha2] at h
                      cases hd4 : dropLit ['='] r5 with
                      | none => rw [hd4] at h; simp at h
                      | some r6 =>
                        rw [hd4] at h
                        simp only [] at h
                        cases r6 with
                        | nil => simp at h
                        | cons hc r7 =>
                          simp only [] at h
                          by_cases ha3 : (!hc.isAlpha) = true
                          · rw [if_pos ha3] at h
                            exact absurd h (by simp)
                          · rw [if_neg ha3] at h
                            cases hd5 : dropLit (".split(".data ++ [qC, qC] ++ [')']) r7 with
                            | none => rw [hd5] at h; simp at h
                            | some r8 =>
                              rw [hd5] at h
                              simp only [Option.some.injEq, Prod.mk.injEq] at h
                              obtain ⟨h1, _⟩ := h
                              rw [← h1]
                              exact ⟨hne, spanTW_all isIdentChar (c :: cs)⟩

/-- names found by the pattern-1 scan are nonempty identifier runs. -/
theorem scanP1_name : ∀ (s : Str) (b : Bool) (n : Str), scanP1 b s = some n →
    n ≠ [] ∧ n.all isIdentChar = true := by
  intro s
  induction s with
  | nil => intro b n h; simp [scanP1] at h
  | cons c cs ih =>
    intro b n h
    cases hp : p1At b (c :: cs) with
    | some m =>
      simp only [scanP1, hp, Option.some.injEq] at h
      exact h ▸ p1At_name b (c :: cs) m hp
    | none =>
      simp only [scanP1, hp] at h
      exact ih (isWordChar c) n h

/-- names found by the pattern-2 scan are nonempty identifier runs. -/
theorem scanP2_name : ∀ (s : Str) (b : Bool) (n : Str), scanP2 b s = some n →
    n ≠ [] ∧ n.all isIdentChar = true := by
  intro s
  induction s with
  | nil => intro b n h; simp [scanP2] at h
  | cons c cs ih =>
    intro b n h
    cases hp : p2At b (c :: cs) with
    | some m =>
      simp only [scanP2, hp, Option.some.injEq] at h
      exact h ▸ p2At_name b (c :: cs) m hp
    | none =>
      simp only [scanP2, hp] at h
      exact ih (isWordChar c) n h

/-- names found by the pattern-4 scan are nonempty identifier runs. -/
theorem scanP4_name : ∀ (s : Str) (b : Bool) (n h2 : Str), scanP4 b s = some (n, h2) →
    n ≠ [] ∧ n.all isIdentChar = true := by
  intro s
  induction s with
  | nil => intro b n h2 h; simp [scanP4] at h
  | cons c cs ih =>
    intro b n h2 h
    cases hp : p4At b (c :: cs) with
    | some m =>
      simp only [scanP4, hp, Option.some.injEq] at h
      subst h
      exact p4At_name b (c :: cs) n h2 hp
    | none =>
      simp only [scanP4, hp] at h
      exact ih (isWordChar c) n h2 h

/-- a hit of the generic scan comes from a hit at some suffix. -/
theorem scanFirst_some_ex {α : Type} (f : Str → Option α) :
    ∀ (s : Str) (a : α), scanFirst f s = some a → ∃ sub, f sub = some a := by
  intro s
  induction s with
  | nil => intro a h; simp [scanFirst] at h
  | cons c cs ih =>
    intro a h
    cases hp : f (c :: cs) with
    | some m =>
      simp only [scanFirst, hp, Option.some.injEq] at h
      exact ⟨c :: cs, by rw [hp, h]⟩
    | none =>
      simp only [scanFirst, hp] at h
      exact ih a h

/-- C7 (amended): the locator tries its four patterns in order and accepts
the first match, so every function name it returns is a nonempty run of
identifier-class bytes (patterns 3 and 4 accept single-character names, so
two characters are not guaranteed); it returns the not-found error exactly
when no pattern matches; when the matching pattern (1 or 2) exposed no
helper name, the secondary pattern anchored on the found function name
supplies the helper — its absence being valid — and a helper exposed by
pattern 3 or 4 is kept as is, the function name never changing. -/
theorem C7_locator (pc : Str) :
    (∀ fn hn, extractDecryptFunction pc = Except.ok (fn, hn) →
      fn ≠ [] ∧ fn.all isIdentChar = true) ∧
    (extractDecryptFunction pc = Except.error "could not find decryption function" ↔
      scanP1 false pc = none ∧ scanP2 false pc = none ∧
      scanFirst p3At pc = none ∧ scanP4 false pc = none) ∧
    (∀ fn, (scanP1 false pc = some fn ∨
        scanP1 false pc = none ∧ scanP2 false pc = some fn) →
      (∀ h, scanFirst (secAt fn) pc = some h →
        extractDecryptFunction pc = Except.ok (fn, h)) ∧
      (scanFirst (secAt fn) pc = none → extractDecryptFunction pc = Except.ok (fn, []))) ∧
    (∀ fn hn, scanP1 false pc = none → scanP2 false pc = none →
      (scanFirst p3At pc = some (fn, hn) ∨
        scanFirst p3At pc = none ∧ scanP4 false pc = some (fn, hn)) →
      hn ≠ [] → extractDecryptFunction pc = Except.ok (fn, hn)) := by
  cases h1 : scanP1 false pc with
  | some n1 =>
    have hname := scanP1_name pc false n1 h1
    have hex : ∃ m, extractDecryptFunction pc = Except.ok (n1, m) := by
      unfold extractDecryptFunction
      simp only [h1]
      cases hs : scanFirst (secAt n1) pc with
      | some hh => exact ⟨hh, by simp [hs]⟩
      | none => exact ⟨[], by simp [hs]⟩
    obtain ⟨m, hm⟩ := hex
    refine ⟨?_, ⟨?_, ?_⟩, ?_, ?_⟩
    · intro fn hn h
      rw [hm] at h
      simp only [Except.ok.injEq, Prod.mk.injEq] at h
      rw [← h.1]
      exact hname
    · intro h
      rw [hm] at h
      exact absurd h (by simp)
    · intro hall
      exact absurd hall.1 (by simp)
    · rintro fn (he | ⟨he, -⟩)
      · have hfn : n1 = fn := by simpa using he
        subst hfn
        constructor
        · intro h hs
          simp [extractDecryptFunction, h1, hs]
        · intro hs
          simp [extractDecryptFunction, h1, hs]
      · exact absurd he (by simp)
    · intro fn hn he
      exact absurd he (by simp)
  | none =>
    cases h2 : scanP2 false pc with
    | some n2 =>
      have hname := scanP2_name pc false n2 h2
      have hex : ∃ m, extractDecryptFunction pc = Except.ok (n2, m) := by
        unfold extractDecryptFunction
        simp only [h1, h2]
        cases hs : scanFirst (secAt n2) pc with
        | some hh => exact ⟨hh, by simp [hs]⟩
        | none => exact ⟨[], by simp [hs]⟩
      obtain ⟨m, hm⟩ := hex
      refine ⟨?_, ⟨?_, ?_⟩, ?_, ?_⟩
      · intro fn hn h
        rw [hm] at h
        simp only [Except.ok.injEq, Prod.mk.injEq] at h
        rw [← h.1]
        exact hname
      · intro h
        rw [hm] at h
        exact absurd h (by simp)
      · intro hall
        exact absurd hall.2.1 (by simp)
      · rintro fn (he | ⟨-, he⟩)
        · exact absurd he (by simp)
        · have hfn : n2 = fn := by simpa using he
          subst hfn
          constructor
          · intro h hs
            simp [extractDecryptFunction, h1, h2, hs]
          · intro hs
            simp [extractDecryptFunction, h1, h2, hs]
      · intro fn hn _ he2
        exact absurd he2 (by simp)
    | none =>
      cases h3p : scanFirst p3At pc with
      | some nh =>
        obtain ⟨n3, h3v⟩ := nh
        obtain ⟨sub, hsub⟩ := scanFirst_some_ex p3At pc (n3, h3v) h3p
        have hname := p3At_name sub n3 h3v hsub
        have hex : ∃ m, extractDecryptFunction pc = Except.ok (n3, m) := by
          unfold extractDecryptFunction
          simp only [h1, h2, h3p]
          by_cases hh3 : h3v = []
          · subst hh3
            cases hs : scanFirst (secAt n3) pc with
            | some hh => exact ⟨hh, by simp [hs]⟩
            | none => exact ⟨[], by simp [hs]⟩
          · exact ⟨h3v, by simp [hh3]⟩
        obtain ⟨m, hm⟩ := hex
        refine ⟨?_, ⟨?_, ?_⟩, ?_, ?_⟩
        · intro fn hn h
          rw [hm] at h
          simp only [Except.ok.injEq, Prod.mk.injEq] at h
          rw [← h.1]
          exact hname
        · intro h
          rw [hm] at h
          exact absurd h (by simp)
        · intro hall
          exact absurd hall.2.2.1 (by simp)
        · rintro fn (he | ⟨-, he⟩) <;> exact absurd he (by simp)
        · intro fn hn _ _
          rintro (he | ⟨he2, -⟩)
          · intro hne
            have hp : n3 = fn ∧ h3v = hn := by simpa using he
            obtain ⟨hf, hh⟩ := hp
            subst hf
            subst hh
            simp [extractDecryptFunction, h1, h2, h3p, hne]
          · exact absurd he2 (by simp)
      | none =>
        cases h4p : scanP4 false pc with
        | some nh =>
          obtain ⟨n4, h4v⟩ := nh
          have hname := scanP4_name pc false n4 h4v h4p
          have hex : ∃ m, extractDecryptFunction pc = Except.ok (n4, m) := by
            unfold extractDecryptFunction
            simp only [h1, h2, h3p, h4p]
            by_cases hh4 : h4v = []
            · subst hh4
              cases hs : scanFirst (secAt n4) pc with
              | some hh => exact ⟨hh, by simp [hs]⟩
              | none => exact ⟨[], by simp [hs]⟩
            · exact ⟨h4v, by simp [hh4]⟩
          obtain ⟨m, hm⟩ := hex
          refine ⟨?_, ⟨?_, ?_⟩, ?_, ?_⟩
          · intro fn hn h
            rw [hm] at h
            simp only [Except.ok.injEq, Prod.mk.injEq] at h
            rw [← h.1]
            exact hname
          · intro h
            rw [hm] at h
            exact absurd h (by simp)
          · intro hall
            exact absurd hall.2.2.2 (by simp)
          · rintro fn (he | ⟨-, he⟩) <;> exact absurd he (by simp)
          · intro fn hn _ _
            rintro (he | ⟨-, he⟩)
            · exact absurd he (by simp)
            · intro hne
              have hp : n4 = fn ∧ h4v = hn := by simpa using he
              obtain ⟨hf, hh⟩ := hp
              subst hf
              subst hh
              simp [extractDecryptFunction, h1, h2, h3p, h4p, hne]
        | none =>
          have hval : extractDecryptFunction pc =
              Except.error "could not find decryption function" := by
            unfold extractDecryptFunction
            simp only [h1, h2, h3p, h4p]
          refine ⟨?_, ⟨?_, ?_⟩, ?_, ?_⟩
          · intro fn hn h
            rw [hval] at h
            exact absurd h (by simp)
          · intro _
            exact ⟨rfl, rfl, rfl, rfl⟩
          · intro _
            exact hval
          · rintro fn (he | ⟨-, he⟩) <;> exact absurd he (by simp)
          · intro fn hn _ _
            rintro (he | ⟨-, he⟩) <;> exact absurd he (by simp)

/-- C7 witness: on the example blob pattern 1 finds the nonempty
identifier-class name DC, and — the pattern exposing no helper — the
secondary recovery pattern finds none, which is valid: the locator returns
DC with an empty helper. -/
theorem C7_locator_witness :
    ("DC".data ≠ ([] : Str) ∧ ("DC".data).all isIdentChar = true) ∧
    extractDecryptFunction pcDC = Except.ok ("DC".data, []) :=
  ⟨(C7_locator pcDC).1 "DC".data [] (by decide),
   ((C7_locator pcDC).2.2.1 "DC".data (Or.inl (by decide))).2 (by decide)⟩

/-- C7 (counterexample): pattern 3 accepts the single-character name `q`, so
the claim that every returned name has at least two characters is false. -/
theorem C7_one_char_cex :
    extractDecryptFunction pcQ = Except.ok ("q".data, "AB".data) ∧
    ("q".data).length = 1 := by decide

/-- C8 (amended): manifest extraction is a pure function of the page text
that fails with the distinct not-found error exactly when the marker regexp
does not match, and with the distinct malformed error exactly when the
captured text fails `json.Unmarshal` into the player-response structure —
which covers both invalid JSON and well-formed JSON of the wrong shape; on
success the formats come from the decoded progressive and adaptive groups. -/
theorem C8_manifest (E : JSEngine) (vid html : Str) (pf : Str → Str) :
    (parseMetaModel E vid html pf = Except.error MetaErr.manifestNotFound ↔
      findPR html = none) ∧
    (parseMetaModel E vid html pf = Except.error MetaErr.manifestMalformed ↔
      ∃ cap, findPR html = some cap ∧ decodePlayerResponse cap = Except.error ()) ∧
    (∀ v, parseMetaModel E vid html pf = Except.ok v →
      ∃ cap pr, findPR html = some cap ∧ decodePlayerResponse cap = Except.ok pr ∧
        v.Formats = processFormats E (playerCodeOf html pf)
          (pr.streamingData.Formats ++ pr.streamingData.AdaptiveFormats) []) := by
  cases hcap : findPR html with
  | none =>
    have hval : parseMetaModel E vid html pf = Except.error MetaErr.manifestNotFound := by
      unfold parseMetaModel
      simp only [hcap]
    refine ⟨⟨fun _ => rfl, fun _ => hval⟩, ⟨?_, ?_⟩, ?_⟩
    · intro h
      rw [hval] at h
      exact absurd h (by simp)
    · rintro ⟨cap, hc, -⟩
      exact absurd hc (by simp)
    · intro v h
      rw [hval] at h
      exact absurd h (by simp)
  | some cap =>
    cases hdec : decodePlayerResponse cap with
    | error u =>
      cases u
      have hval : parseMetaModel E vid html pf = Except.error MetaErr.manifestMalformed := by
        unfold parseMetaModel
        simp only [hcap, hdec]
      refine ⟨⟨?_, ?_⟩, ⟨fun _ => ⟨cap, rfl, hdec⟩, fun _ => hval⟩, ?_⟩
      · intro h
        rw [hval] at h
        exact absurd h (by simp)
      · intro hnone
        exact absurd hnone (by simp)
      · intro v h
        rw [hval] at h
        exact absurd h (by simp)
    | ok pr =>
      by_cases hf : processFormats E (playerCodeOf html pf)
          (pr.streamingData.Formats ++ pr.streamingData.AdaptiveFormats) [] = []
      · have hval : parseMetaModel E vid html pf = Except.error MetaErr.noFormats := by
          unfold parseMetaModel
          simp only [hcap, hdec, hf]
          simp
        refine ⟨⟨?_, ?_⟩, ⟨?_, ?_⟩, ?_⟩
        · intro h
          rw [hval] at h
          exact absurd h (by simp)
        · intro hnone
          exact absurd hnone (by simp)
        · intro h
          rw [hval] at h
          exact absurd h (by simp)
        · rintro ⟨cap2, hc2, hd2⟩
          simp only [Option.some.injEq] at hc2
          subst hc2
          rw [hdec] at hd2
          exact absurd hd2 (by simp)
        · intro v h
          rw [hval] at h
          exact absurd h (by simp)
      · have hval : ∃ v0, parseMetaModel E vid html pf = Except.ok v0 ∧
            v0.Formats = processFormats E (playerCodeOf html pf)
              (pr.streamingData.Formats ++ pr.streamingData.AdaptiveFormats) [] := by
          unfold parseMetaModel
          simp only [hcap, hdec]
          rw [if_neg hf]
          exact ⟨_, rfl, rfl⟩
        obtain ⟨v0, hv0, hv0f⟩ := hval
        refine ⟨⟨?_, ?_⟩, ⟨?_, ?_⟩, ?_⟩
        · intro h
          rw [hv0] at h
          exact absurd h (by simp)
        · intro hnone
          exact absurd hnone (by simp)
        · intro h
          rw [hv0] at h
          exact absurd h (by simp)
        · rintro ⟨cap2, hc2, hd2⟩
          simp only [Option.some.injEq] at hc2
          subst hc2
          rw [hdec] at hd2
          exact absurd hd2 (by simp)
        · intro v h
          rw [hv0] at h
          simp only [Except.ok.injEq] at h
          subst h
          exact ⟨cap, pr, rfl, hdec, hv0f⟩

/-- C8 witness: a page without the marker yields the not-found error. -/
theorem C8_manifest_witness :
    parseMetaModel engineFail "v".data htmlPlain noFetch =
      Except.error MetaErr.manifestNotFound :=
  ((C8_manifest engineFail "v".data htmlPlain noFetch).1).mpr (by decide)

/-- C8 (counterexample): on a page whose captured manifest is valid JSON of
the wrong shape, the captured text parses as JSON yet `parseMeta` reports
the malformed error — so "malformed exactly when not valid JSON" is false. -/
theorem C8_valid_json_cex :
    findPR html8 = some cap8 ∧ (jsonParse cap8).isSome = true ∧
    parseMetaModel engineFail "vid".data html8 noFetch =
      Except.error MetaErr.manifestMalformed := by decide

end Ytdl
